import Mathlib

/-!
Shallow embedding of the labsuite `Protocol` model
(`src/labsuite/protocol/protocol.py`) together with the collaborators it
needs (`ContextHandler`, grid position handling, content hashing), which are
not part of `src/` and are therefore modelled from the spec where noted.

Conventions of the embedding:
* Python in-place mutation with exceptions is modelled by functions returning
  `Protocol × Option Err`: the first component is the state of the object
  after the call (also when an exception escaped mid-way), the second the
  exception, `none` meaning normal return.
* Python dicts are association lists with dict-insert semantics
  (`dictInsert` updates an existing key in place, otherwise appends), and
  lookup finds the first matching key.
* Grid positions are kept in canonical coordinate form `(column, row)`;
  the string lexing done by `labsuite.labware.grid` (not in `src/`) is
  abstracted away: positions arrive pre-lexed, with `normalize_position`
  acting as the pass-through arm of the spec, and compound
  "container:well" addresses arrive as an `Addr` whose container half is
  either a coordinate or a label token.
* Volumes are rationals; the volume arithmetic the claims exercise
  (`0.01 * 1000 = 10`) is exact in Python floats as well.
* `time.strftime` is modelled by the fixed string `nowString`; no claim
  depends on the clock value.
* Version strings "x.y.z" are modelled pre-parsed as `Nat` triples.
-/

/-- Exception kinds of `labsuite.util.exceptions` plus the builtin Python
errors the source can raise (`ValueError`, `NameError`). -/
inductive Err where
  | containerConflict (msg : String)
  | instrumentConflict (msg : String)
  | containerMissing (msg : String)
  | instrumentMissing (msg : String)
  | commandMissing (msg : String)
  | valueError (msg : String)
  | nameError (msg : String)
  | partialException (msg : String)
deriving DecidableEq, Repr

deriving instance DecidableEq for Except

/-- Lookup of the first binding of a key in an association list (Python dict
lookup; dicts never hold a key twice, so first = only). -/
def dictLookup {α β : Type} [DecidableEq α] : List (α × β) → α → Option β
  | [], _ => none
  | (k, v) :: rest, k' => if k = k' then some v else dictLookup rest k'

/-- Python dict assignment `d[k] = v`: replaces the value of an existing key
in place, otherwise appends the new binding (insertion order preserved). -/
def dictInsert {α β : Type} [DecidableEq α] : List (α × β) → α → β → List (α × β)
  | [], k, v => [(k, v)]
  | (k', v') :: rest, k, v =>
    if k' = k then (k, v) :: rest else (k', v') :: dictInsert rest k v

/-- Sequences a fallible, state-mutating step over a list, stopping at the
first exception while keeping the state reached so far (Python `for` loop
whose body may raise). -/
def stepFold {σ α : Type} (f : σ → α → σ × Option Err) : σ → List α → σ × Option Err
  | s, [] => (s, none)
  | s, a :: rest =>
    match f s a with
    | (s', none) => stepFold f s' rest
    | (s', some e) => (s', some e)

abbrev Coord := Nat × Nat

/-- Injective encoding of a string as a natural number (big-endian digits in
base 1114113, one digit per character, each digit nonzero). -/
def encStr (s : String) : Nat :=
  s.data.foldl (fun a c => a * 1114113 + (c.toNat + 1)) 0

def encInt : Int → Nat
  | .ofNat n => Nat.pair 0 n
  | .negSucc n => Nat.pair 1 n

def encRat (q : Rat) : Nat := Nat.pair (encInt q.num) q.den

def encCoord (c : Coord) : Nat := Nat.pair c.1 c.2

def encBool (b : Bool) : Nat := cond b 1 0

def encOptRat : Option Rat → Nat
  | none => Nat.pair 0 0
  | some q => Nat.pair 1 (encRat q)

def encOptNat : Option Nat → Nat
  | none => Nat.pair 0 0
  | some n => Nat.pair 1 n

def encSS (e : String × String) : Nat := Nat.pair (encStr e.1) (encStr e.2)

def encLabelEntry (e : String × Coord) : Nat := Nat.pair (encStr e.1) (encCoord e.2)

def encContEntry (e : Coord × String) : Nat := Nat.pair (encCoord e.1) (encStr e.2)

def encAddr (a : Coord × Coord) : Nat := Nat.pair (encCoord a.1) (encCoord a.2)

/-- Insertion step of the canonicalizing sort. -/
def insNat (x : Nat) : List Nat → List Nat
  | [] => [x]
  | y :: ys => if x ≤ y then x :: y :: ys else y :: insNat x ys

/-- Canonical (sorted) form of a serialized dict, modelling the stable key
ordering of the canonical serialization that `labsuite.util.hashing`
(not in `src/`) feeds to its content hash. -/
def canon (l : List Nat) : List Nat := l.foldr insNat []

/-- Calibration offsets recorded for one instrument axis. -/
structure CalRecord where
  top : Option Rat := none
  blowout : Option Rat := none
  droptip : Option Rat := none
  bottom : Option Rat := none
deriving DecidableEq, Repr

/-- Key under which `ContextHandler.calibrate` files position calibration:
`Protocol.calibrate` passes either a single slot coordinate or a
(container, well) pair. -/
inductive CalKey where
  | single (c : Coord)
  | pair (c w : Coord)
deriving DecidableEq, Repr

/-- Record of a single transfer command as appended by `Protocol.transfer`
(keys: command, volume, tool, start, end, blowout, touchtip; the `end` key
is spelled `end_` because `end` is a Lean keyword). -/
structure TransferRec where
  volume : Rat
  tool : String
  start : Coord × Coord
  end_ : Coord × Coord
  blowout : Bool
  touchtip : Bool
deriving DecidableEq, Repr

/-- Record of a mix command as appended by `Protocol.mix`. -/
structure MixRec where
  tool : String
  start : Coord × Coord
  blowout : Bool
  touchtip : Bool
  volume : Rat
  reps : Option Nat
deriving DecidableEq, Repr

/-- Tagged command records of the append-only command log. The source keeps
commands as dicts with a `command` tag and dispatches on the tag by name;
an inductive models the closed command vocabulary. -/
inductive Command where
  | transfer (t : TransferRec)
  | mix (m : MixRec)
deriving DecidableEq, Repr

def encCommand : Command → Nat
  | .transfer t =>
    Nat.pair 0 (Nat.pair (encRat t.volume) (Nat.pair (encStr t.tool)
      (Nat.pair (encAddr t.start) (Nat.pair (encAddr t.end_)
        (Nat.pair (encBool t.blowout) (encBool t.touchtip))))))
  | .mix m =>
    Nat.pair 1 (Nat.pair (encStr m.tool) (Nat.pair (encAddr m.start)
      (Nat.pair (encBool m.blowout) (Nat.pair (encBool m.touchtip)
        (Nat.pair (encRat m.volume) (encOptNat m.reps))))))

/-- Modelled from the spec: the `ContextHandler` virtual deck
(`labsuite.protocol.handlers`, not in `src/`): tracks allocated containers,
installed instruments and calibration data, and simulates command execution
to validate it, with no physical side effect.  `executed` is the trace of
commands it has replayed. -/
structure Context where
  containers : List (Coord × String) := []
  instruments : List (String × String) := []
  instrument_calibration : List (String × CalRecord) := []
  position_calibration : List (CalKey × List (String × Rat)) := []
  executed : List Command := []
deriving DecidableEq, Repr

/-- Modelled from the spec: `ContextHandler.add_container(slot, type)` fails
with `ContainerConflict` if the slot is occupied by a different type and is
idempotent if the type is identical. -/
def ctx_add_container (c : Context) (slot : Coord) (name : String) : Except Err Context :=
  match dictLookup c.containers slot with
  | some n =>
    if n = name then .ok c
    else .error (.containerConflict ("Slot " ++ toString slot ++ " already allocated to " ++ n))
  | none => .ok { c with containers := c.containers ++ [(slot, name)] }

/-- Modelled from the spec: `ContextHandler.add_instrument(axis, type)` fails
with `InstrumentConflict` analogously to `add_container`. -/
def ctx_add_instrument (c : Context) (axis name : String) : Except Err Context :=
  match dictLookup c.instruments axis with
  | some n =>
    if n = name then .ok c
    else .error (.instrumentConflict ("Axis " ++ axis ++ " already allocated to " ++ n))
  | none => .ok { c with instruments := c.instruments ++ [(axis, name)] }

/-- Modelled from the spec: `ContextHandler.calibrate(pos, **kwargs)` records
calibration offsets for a position; missing data only surfaces downstream as
`CalibrationMissing`. -/
def ctx_calibrate (c : Context) (key : CalKey) (data : List (String × Rat)) : Context :=
  { c with position_calibration := dictInsert c.position_calibration key data }

/-- Modelled from the spec: `ContextHandler.calibrate_instrument(axis, top,
blowout, droptip, bottom)` records the offsets it is given for that axis
(absent keyword arguments default to `None`). -/
def ctx_calibrate_instrument (c : Context) (axis : String)
    (top blowout droptip bottom : Option Rat) : Context :=
  let rec' : CalRecord :=
    { top := top, blowout := blowout, droptip := droptip, bottom := bottom }
  { c with instrument_calibration := dictInsert c.instrument_calibration axis rec' }

/-- Modelled from the spec: capacity table of `labsuite.labware.pipettes`
(not in `src/`); an instrument type supports a volume when the volume is
positive and within its capacity. -/
def pipette_max_volume (name : String) : Option Rat :=
  if name = "p10" then some 10
  else if name = "p20" then some 20
  else if name = "p200" then some 200
  else if name = "p1000" then some 1000
  else none

def instrument_supports (name : String) (vol : Rat) : Bool :=
  match pipette_max_volume name with
  | some m => decide (0 < vol) && decide (vol ≤ m)
  | none => false

/-- Modelled from the spec: `ContextHandler.get_instrument` resolves the
instrument for an operation — exact name match if a name is given, else the
smallest-capacity installed instrument whose volume range covers the
requested volume (or volume range); `none` if no candidate qualifies. -/
def ctx_get_instrument (c : Context) (name : Option String)
    (has_volume : Option Rat) (has_volumes : Option (Rat × Rat)) : Option String :=
  match name with
  | some n => if c.instruments.any (fun av => av.2 = n) then some n else none
  | none =>
    let ok := fun nm =>
      match has_volume, has_volumes with
      | some v, _ => instrument_supports nm v
      | none, some lohi => instrument_supports nm lohi.1 && instrument_supports nm lohi.2
      | none, none => true
    let cap := fun nm => (pipette_max_volume nm).getD 0
    (c.instruments.map (fun av => av.2)).filter ok |>.foldl
      (fun best nm =>
        match best with
        | none => some nm
        | some b => if cap nm < cap b then some nm else best)
      none

/-- Modelled from the spec: command-shaped `ContextHandler` methods validate
that referenced containers and instruments exist and that volumes are
positive, raising immediately (the dry-run validation contract); on success
the command is recorded on the execution trace. -/
def ctx_check_container (c : Context) (a : Coord × Coord) : Option Err :=
  if (dictLookup c.containers a.1).isSome then none
  else some (.containerMissing ("Container not found: " ++ toString a.1))

def ctx_check_instrument (c : Context) (tool : String) : Option Err :=
  if c.instruments.any (fun av => av.2 = tool) then none
  else some (.instrumentMissing ("No instrument named " ++ tool))

def ctx_check_volume (v : Rat) : Option Err :=
  if 0 < v then none else some (.valueError "Volume must exceed 0.")

def ctx_run_command (c : Context) (cmd : Command) : Except Err Context :=
  match cmd with
  | .transfer t =>
    match ctx_check_container c t.start with
    | some e => .error e
    | none =>
      match ctx_check_container c t.end_ with
      | some e => .error e
      | none =>
        match ctx_check_instrument c t.tool with
        | some e => .error e
        | none =>
          match ctx_check_volume t.volume with
          | some e => .error e
          | none => .ok { c with executed := c.executed ++ [cmd] }
  | .mix m =>
    match ctx_check_container c m.start with
    | some e => .error e
    | none =>
      match ctx_check_instrument c m.tool with
      | some e => .error e
      | none =>
        match ctx_check_volume m.volume with
        | some e => .error e
        | none => .ok { c with executed := c.executed ++ [cmd] }

abbrev HashVal := List (List Nat)

/-- State of `Protocol` (its `_`-prefixed instance attributes); handlers are
identified by numeric ids allocated from `next_handler`, mirroring Python
object identity for `list.remove`.  `calibration` is initialized by the
source and never written.  `partial_proxy` carries the validity flag and
problem list a wrapping `PartialProtocol` would hold. -/
structure Protocol where
  ingredients : List (String × String) := []
  head : List (String × String) := []
  calibration : List (String × String) := []
  container_labels : List (String × Coord) := []
  label_case : List (String × String) := []
  containers : List (Coord × String) := []
  commands : List Command := []
  name : Option String := none
  description : Option String := none
  created : Option String := none
  updated : Option String := none
  author : Option String := none
  version : Nat × Nat × Nat := (0, 0, 0)
  version_hash : Option HashVal := none
  handlers : List Nat := []
  next_handler : Nat := 0
  context : Context := {}
  motor : Option Nat := none
  partial_proxy : Option (Bool × List String) := none
deriving DecidableEq, Repr

/-- Content hash of the structural fields, in the order the source lists
them: ingredients, head, container labels, label case, containers, commands.
Modelled from the spec as the canonical serialization itself (dict keys in
stable sorted order, command log in sequence order); `hash_data` of
`labsuite.util.hashing` is not in `src/`. -/
def Protocol.hashv (p : Protocol) : HashVal :=
  [ canon (p.ingredients.map encSS),
    canon (p.head.map encSS),
    canon (p.container_labels.map encLabelEntry),
    canon (p.label_case.map encSS),
    canon (p.containers.map encContEntry),
    p.commands.map encCommand ]

/-- `Protocol.__eq__`: equality is hash equality. -/
def Protocol.eqb (p q : Protocol) : Bool := decide (p.hashv = q.hashv)

def versionString (v : Nat × Nat × Nat) : String :=
  toString v.1 ++ "." ++ toString v.2.1 ++ "." ++ toString v.2.2

/-- `Protocol.version` property. -/
def Protocol.versionStr (p : Protocol) : String := versionString p.version

/-- Keyword arguments of `set_info` / the value of the `info` property.
The `version_hash` key of `info` is swallowed by `set_info`'s `**kwargs`
and is omitted; the version string is kept pre-parsed. -/
structure Info where
  name : Option String := none
  description : Option String := none
  author : Option String := none
  created : Option String := none
  updated : Option String := none
  version : Option (Nat × Nat × Nat) := none
deriving DecidableEq, Repr

/-- Placeholder for `str(time.strftime("%c"))`. -/
def nowString : String := "now"

/-- `Protocol.info` property: optional metadata fields when set, created and
updated falling back to the current time, plus version and version hash. -/
def Protocol.info (p : Protocol) : Info :=
  { name := p.name
    description := p.description
    author := p.author
    created := some (p.created.getD nowString)
    updated := some (p.updated.getD nowString)
    version := some p.version }

/-- `Protocol.set_info`: sets each provided metadata field in source order
(name, description, author, created, updated, version); providing a version
also snapshots the current hash as the version hash. -/
def Protocol.set_info (p : Protocol) (i : Info) : Protocol :=
  let p := match i.name with | some v => { p with name := some v } | none => p
  let p := match i.description with | some v => { p with description := some v } | none => p
  let p := match i.author with | some v => { p with author := some v } | none => p
  let p := match i.created with | some v => { p with created := some v } | none => p
  let p := match i.updated with | some v => { p with updated := some v } | none => p
  match i.version with
  | some v => { p with version := v, version_hash := some p.hashv }
  | none => p

/-- `Protocol.bump_version(impact)`: no-op when the structural hash equals
the hash snapshotted at the last bump; otherwise increments the field named
by `impact` (resetting the lower ones) and snapshots the new hash; an
unknown impact raises `ValueError`. Returns the version string. -/
def Protocol.bump_version (p : Protocol) (impact : String) : Protocol × Except Err String :=
  let vhash := p.hashv
  if p.version_hash = some vhash then
    (p, .ok p.versionStr)
  else
    let mfm := p.version
    if impact = "minor" then
      let v := (mfm.1, mfm.2.1, mfm.2.2 + 1)
      ({ p with version := v, version_hash := some vhash }, .ok (versionString v))
    else if impact = "feature" then
      let v := (mfm.1, mfm.2.1 + 1, 0)
      ({ p with version := v, version_hash := some vhash }, .ok (versionString v))
    else if impact = "major" then
      let v := (mfm.1 + 1, 0, 0)
      ({ p with version := v, version_hash := some vhash }, .ok (versionString v))
    else
      (p, .error (.valueError "Impact must be one of: minor, feature, major."))

/-- Lowercasing of a character, as Python `str.lower` does for the ASCII
labels the source handles. -/
def lowerChar (c : Char) : Char :=
  if 65 ≤ c.toNat ∧ c.toNat ≤ 90 then Char.ofNat (c.toNat + 32) else c

/-- Python `str.lower` (kernel-computable counterpart of `String.toLower`
for the ASCII label strings of this model). -/
def strToLower (s : String) : String := ⟨s.data.map lowerChar⟩

/-- Modelled from the spec: `normalize_position` of `labsuite.labware.grid`
(not in `src/`) — the pass-through arm for canonical coordinate pairs; the
human-token arm is handled by the pre-lexing of positions in this
embedding. -/
def normalize_position (c : Coord) : Coord := c

/-- Container half of a compound "container:well" address: either a
coordinate token or a label token. -/
inductive ContRef where
  | coord (c : Coord)
  | label (s : String)
deriving DecidableEq, Repr

/-- Compound "container:well" address, pre-lexed. -/
structure Addr where
  container : ContRef
  well : Coord
deriving DecidableEq, Repr

/-- `Protocol._normalize_address`: resolves the container half first as a
coordinate, on failure as a case-insensitive label lookup, raising
`ContainerMissing` when both fail. -/
def Protocol.normalize_address (p : Protocol) (a : Addr) : Except Err (Coord × Coord) :=
  match a.container with
  | .coord c => .ok (normalize_position c, normalize_position a.well)
  | .label s =>
    match dictLookup p.container_labels (strToLower s) with
    | some c => .ok (c, normalize_position a.well)
    | none => .error (.containerMissing ("Container not found: " ++ s))

/-- Shared tail of `Protocol.add_container`: validate against the context,
then record the container locally.  Runs after the label maps have already
been updated. -/
def addContainerFinish (p : Protocol) (slot : Coord) (name : String) : Protocol × Option Err :=
  match ctx_add_container p.context slot name with
  | .error e => (p, some e)
  | .ok c => ({ p with context := c, containers := dictInsert p.containers slot name }, none)

/-- `Protocol.add_container(slot, name, label=None)`: checks a duplicate
label, records the label maps, then validates the slot against the context
and records the container. -/
def Protocol.add_container (p : Protocol) (slot : Coord) (name : String)
    (label : Option String) : Protocol × Option Err :=
  let slot := normalize_position slot
  match label with
  | some lab =>
    let low := strToLower lab
    if (dictLookup p.container_labels low).isSome then
      (p, some (.containerConflict ("Label already in use: " ++ lab)))
    else
      let p :=
        if (dictLookup p.label_case low).isSome then p
        else { p with label_case := dictInsert p.label_case low lab }
      let p := { p with container_labels := dictInsert p.container_labels low slot }
      addContainerFinish p slot name
  | none => addContainerFinish p slot name

/-- `Protocol.add_instrument(axis, name)`: writes the head entry first, then
validates against the context. -/
def Protocol.add_instrument (p : Protocol) (axis name : String) : Protocol × Option Err :=
  let p := { p with head := dictInsert p.head axis name }
  match ctx_add_instrument p.context axis name with
  | .error e => (p, some e)
  | .ok c => ({ p with context := c }, none)

/-- Target of `Protocol.calibrate`: a compound address (the branch taken
when the position string contains a colon) or a single position. -/
inductive CalTarget where
  | addr (a : Addr)
  | pos (c : Coord)
deriving DecidableEq, Repr

/-- `Protocol.calibrate(position, **kwargs)`: resolves the position, then
records the offsets on the context. -/
def Protocol.calibrate (p : Protocol) (t : CalTarget) (data : List (String × Rat)) :
    Protocol × Option Err :=
  match t with
  | .addr a =>
    match p.normalize_address a with
    | .error e => (p, some e)
    | .ok pr => ({ p with context := ctx_calibrate p.context (.pair pr.1 pr.2) data }, none)
  | .pos c =>
    ({ p with context := ctx_calibrate p.context (.single (normalize_position c)) data }, none)

/-- `Protocol.calibrate_instrument(axis, top, blowout, droptip, bottom)`:
the source forwards only `top`, `blowout` and `droptip` to the context;
the `bottom` parameter is accepted but not passed on, so the context
records `None` for it. -/
def Protocol.calibrate_instrument (p : Protocol) (axis : String)
    (top blowout droptip bottom : Option Rat) : Protocol × Option Err :=
  ({ p with context := ctx_calibrate_instrument p.context axis top blowout droptip none },
   none)

/-- `Protocol.add_command`: runs the command in the virtualized context
(`_run_in_context_handler`; the inductive command type makes the
`getattr` dispatch total) and appends the record only on success. -/
def Protocol.add_command (p : Protocol) (c : Command) : Protocol × Option Err :=
  match ctx_run_command p.context c with
  | .error e => (p, some e)
  | .ok ctx2 => ({ p with context := ctx2, commands := p.commands ++ [c] }, none)

/-- `Protocol._normalize_volume(ul, ml, default, skip_raise)`: rejects a
zero volume, rejects conflicting `ul`/`ml` (`ml * 1000` must equal `ul`),
and returns `ul`, else `ml * 1000`, else the default, else raises unless
`skip_raise`. -/
def normalize_volume (ul ml default_ : Option Rat) (skip_raise : Bool) :
    Except Err (Option Rat) :=
  if ul = some 0 ∨ ml = some 0 ∨ default_ = some 0 then
    .error (.valueError "Volume must exceed 0.")
  else
    let conflict :=
      match ul, ml with
      | some u, some m => decide (m * 1000 ≠ u)
      | _, _ => false
    if conflict then .error (.valueError "Conflicting volumes for ml and ul.")
    else
      match ul with
      | some u => .ok (some u)
      | none =>
        match ml with
        | some m => .ok (some (m * 1000))
        | none =>
          match default_ with
          | some d => .ok (some d)
          | none =>
            if skip_raise then .ok none
            else .error (.valueError "No volume provided.")

/-- `Protocol.get_tool`: resolves an instrument through the context,
surfacing `None` as `InstrumentMissing`. -/
def Protocol.get_tool (p : Protocol) (name : Option String)
    (has_volume : Option Rat) (has_volumes : Option (Rat × Rat)) : Except Err String :=
  match ctx_get_instrument p.context name has_volume has_volumes with
  | some t => .ok t
  | none => .error (.instrumentMissing "No instrument found with parameters given")

/-- `Protocol.transfer(start, end, ul, ml, blowout, touchtip, tool)`:
normalizes the volume, resolves the tool, normalizes both addresses and
appends a transfer command. -/
def Protocol.transfer (p : Protocol) (start end_ : Addr) (ul ml : Option Rat)
    (blowout touchtip : Bool) (tool : Option String) : Protocol × Option Err :=
  match normalize_volume ul ml none false with
  | .error e => (p, some e)
  | .ok none => (p, some (.valueError "No volume provided."))
  | .ok (some volume) =>
    match p.get_tool tool (some volume) none with
    | .error e => (p, some e)
    | .ok toolName =>
      match p.normalize_address start with
      | .error e => (p, some e)
      | .ok s =>
        match p.normalize_address end_ with
        | .error e => (p, some e)
        | .ok e2 =>
          p.add_command (.transfer
            { volume := volume, tool := toolName, start := s, end_ := e2,
              blowout := blowout, touchtip := touchtip })

/-- `Protocol.mix(start, ml, ul, repetitions, tool, blowout, touchtip)`. -/
def Protocol.mix (p : Protocol) (start : Addr) (ml ul : Option Rat)
    (repetitions : Option Nat) (tool : Option String)
    (blowout touchtip : Bool) : Protocol × Option Err :=
  match normalize_volume ul ml none false with
  | .error e => (p, some e)
  | .ok none => (p, some (.valueError "No volume provided."))
  | .ok (some volume) =>
    match p.get_tool tool (some volume) none with
    | .error e => (p, some e)
    | .ok toolName =>
      match p.normalize_address start with
      | .error e => (p, some e)
      | .ok s =>
        p.add_command (.mix
          { tool := toolName, start := s, blowout := blowout, touchtip := touchtip,
            volume := volume, reps := repetitions })

/-- Python dict comprehension `{v: k for k, v in labels.items()}` used by
`apply_protocol` to invert the label map (later bindings overwrite earlier
ones on a duplicate value). -/
def invertLabels (l : List (String × Coord)) : List (Coord × String) :=
  l.foldl (fun acc kv => dictInsert acc kv.2 kv.1) []

/-- One iteration of the container-merging loop of `apply_protocol`: a slot
occupied by a different type is a hard `ContainerConflict`; an identical
duplicate is skipped; a new slot is added through `add_container`. -/
def containersStep (q : Protocol) (sv : Coord × String) : Protocol × Option Err :=
  match dictLookup q.containers sv.1 with
  | some n =>
    if n ≠ sv.2 then
      (q, some (.containerConflict
        ("Slot " ++ toString sv.1 ++ " already allocated to " ++ sv.2)))
    else (q, none)
  | none => q.add_container sv.1 sv.2 none

/-- Container-merging loop of `apply_protocol`. -/
def applyContainers (p : Protocol) (cs : List (Coord × String)) : Protocol × Option Err :=
  stepFold containersStep p cs

/-- One iteration of the label-merging loop of `apply_protocol`, over the
inverse label map computed once before the loop: a slot already claimed by
a different label is a hard conflict, otherwise the label is written. -/
def labelsStep (inv : List (Coord × String)) (q : Protocol) (lv : String × Coord) :
    Protocol × Option Err :=
  match dictLookup inv lv.2 with
  | some l =>
    if l ≠ lv.1 then
      (q, some (.containerConflict
        ("Conflicting labels at " ++ toString lv.2 ++ ": " ++ l ++ " vs " ++ lv.1)))
    else ({ q with container_labels := dictInsert q.container_labels lv.1 lv.2 }, none)
  | none =>
    ({ q with container_labels := dictInsert q.container_labels lv.1 lv.2 }, none)

/-- Label-merging loop of `apply_protocol`: the inverse label map is
computed once from the receiver before the loop. -/
def applyLabels (p : Protocol) (ls : List (String × Coord)) : Protocol × Option Err :=
  stepFold (labelsStep (invertLabels p.container_labels)) p ls

/-- Label-case loop of `apply_protocol`: the second operand's casing always
supersedes. -/
def applyLabelCase (p : Protocol) (lc : List (String × String)) : Protocol :=
  lc.foldl (fun q kv => { q with label_case := dictInsert q.label_case kv.1 kv.2 }) p

/-- One iteration of the instrument-merging loop of `apply_protocol`: a
different type on an occupied axis is a hard `InstrumentConflict`;
otherwise `add_instrument` is called (also for an identical duplicate). -/
def instrumentsStep (q : Protocol) (av : String × String) : Protocol × Option Err :=
  match dictLookup q.head av.1 with
  | some n =>
    if n ≠ av.2 then
      (q, some (.instrumentConflict
        ("Axis " ++ av.1 ++ " already allocated to " ++ av.2)))
    else q.add_instrument av.1 av.2
  | none => q.add_instrument av.1 av.2

/-- Instrument-merging loop of `apply_protocol`. -/
def applyInstruments (p : Protocol) (hs : List (String × String)) : Protocol × Option Err :=
  stepFold instrumentsStep p hs

/-- Command-replay loop of `apply_protocol`: the second operand's commands
are re-validated in the combined context via `add_command`.  The source's
trailing `self.commands.append(command)` appends to a deep copy returned by
the `commands` property and has no effect, so it is omitted. -/
def applyCommands (p : Protocol) (cs : List Command) : Protocol × Option Err :=
  stepFold Protocol.add_command p cs

/-- `Protocol.apply_protocol(b)`: applies the operand's metadata, then its
containers, labels, label casing, instruments and replayed commands to the
receiver, raising at the first conflict. -/
def Protocol.apply_protocol (a b : Protocol) : Protocol × Option Err :=
  let a := a.set_info b.info
  match applyContainers a b.containers with
  | (a, some e) => (a, some e)
  | (a, none) =>
    match applyLabels a b.container_labels with
    | (a, some e) => (a, some e)
    | (a, none) =>
      let a := applyLabelCase a b.label_case
      match applyInstruments a b.head with
      | (a, some e) => (a, some e)
      | (a, none) => applyCommands a b.commands

/-- `Protocol.__add__` for a full `Protocol` operand: builds a fresh
document, applies both operands to it and returns it; when a conflict
raises, the partially built document is discarded and only the exception
escapes (the `PartialProtocol` and `TypeError` branches are out of scope
for these claims). -/
def Protocol.add (a b : Protocol) : Except Err Protocol :=
  let c : Protocol := {}
  match c.apply_protocol a with
  | (_, some e) => .error e
  | (c, none) =>
    match c.apply_protocol b with
    | (_, some e) => .error e
    | (c, none) => .ok c

/-- `Protocol.initialize_context`: builds a fresh `ContextHandler` holding
the protocol's containers and instruments.  Conflicts are unreachable when
the maps are dict-backed (unique keys); the error branch keeps the
context unchanged. -/
def Protocol.initialize_context (p : Protocol) : Context :=
  let c : Context := {}
  let c := p.containers.foldl
    (fun c sv => match ctx_add_container c sv.1 sv.2 with | .ok c2 => c2 | .error _ => c) c
  let c := p.head.foldl
    (fun c av => match ctx_add_instrument c av.1 av.2 with | .ok c2 => c2 | .error _ => c) c
  c

/-- `Protocol.validate(error_message)`: raises `PartialProtocolException`
when the document is wrapped by an invalid `PartialProtocol`. -/
def Protocol.validate (p : Protocol) (msg : String) : Option Err :=
  match p.partial_proxy with
  | some (false, probs) =>
    some (.partialException (msg ++ " Problems: " ++ String.intercalate "; " probs))
  | _ => none

/-- `Protocol._run(index)`: re-validates command `index` in the context,
then invokes each attached handler's matching method (handler behaviour is
external to the core and leaves the document unchanged). -/
def Protocol.run_one (p : Protocol) (i : Nat) : Protocol × Option Err :=
  match p.commands[i]? with
  | none => (p, some (.commandMissing "Command index out of range"))
  | some c =>
    match ctx_run_command p.context c with
    | .error e => (p, some e)
    | .ok ctx2 => ({ p with context := ctx2 }, none)

/-- Loop body of the `run` generator from index list `idxs` with total
count `n`: executes one command per step, then yields the progress pair
together with the context's execution trace at the moment of the yield. -/
def run_go (p : Protocol) (idxs : List Nat) (n : Nat) :
    Protocol × List ((Nat × Nat) × List Command) × Option Err :=
  match idxs with
  | [] => (p, [], none)
  | i :: rest =>
    match p.run_one i with
    | (p', some e) => (p', [], some e)
    | (p', none) =>
      match run_go p' rest n with
      | (p'', ys, err) => (p'', ((i + 1, n), p'.context.executed) :: ys, err)

/-- `Protocol.run()`: validates, rebuilds a fresh context, yields `(0, n)`
and then one progress pair per executed command.  The returned list pairs
every yielded progress marker with the commands executed up to that yield;
`run_all` drains this sequence. -/
def Protocol.run (p : Protocol) :
    Protocol × List ((Nat × Nat) × List Command) × Option Err :=
  match p.validate "Cannot run an incomplete PartialProtocol." with
  | some e => (p, [], some e)
  | none =>
    let p := { p with context := p.initialize_context }
    let n := p.commands.length
    match run_go p (List.range n) n with
    | (p', ys, err) => (p', ((0, n), p.context.executed) :: ys, err)

/-- `Protocol.attach_handler` on a handler class: instantiates a fresh
handler (a fresh id stands for the new Python object), sets its context,
and appends it to the handler list. -/
def Protocol.attach_handler_new (p : Protocol) : Protocol × Nat :=
  ({ p with handlers := p.handlers ++ [p.next_handler], next_handler := p.next_handler + 1 },
   p.next_handler)

/-- `Protocol.attach_handler` on an existing handler instance: appends it
to the handler list (again, if already present). -/
def Protocol.attach_handler_existing (p : Protocol) (h : Nat) : Protocol :=
  { p with handlers := p.handlers ++ [h] }

/-- `Protocol.attach_motor()` without a port: attaches a fresh
`MotorControlHandler` in simulation mode and records it as the motor
handler. -/
def Protocol.attach_motor (p : Protocol) : Protocol × Nat :=
  let pr := p.attach_handler_new
  ({ pr.1 with motor := some pr.2 }, pr.2)

/-- Python `list.remove(x)`: removes the first occurrence. -/
def removeFirstNat : List Nat → Nat → List Nat
  | [], _ => []
  | y :: ys, x => if y = x then ys else y :: removeFirstNat ys x

/-- `Protocol._handler_runthrough(handler)`: disables the logger, detaches
all handlers, attaches the given handler and replays the whole protocol;
the `finally` block re-enables the logger (unconditionally, rather than
restoring its previous state) and restores the handler list snapshot taken
at entry.  The boolean state is `logger.disabled`. -/
def Protocol.handler_runthrough (p : Protocol) (loggerDisabled : Bool) (h : Nat) :
    Protocol × Bool × Option Err :=
  let _ := loggerDisabled
  let old_handlers := p.handlers
  let p := { p with handlers := [] }
  let p := p.attach_handler_existing h
  match p.run with
  | (p, _, err) => ({ p with handlers := old_handlers }, false, err)

/-- `Protocol._virtual_run()`: removes the current motor handler from the
handler list, attaches a fresh virtual motor (which also appends it to the
handler list before the runthrough snapshot is taken), performs the scoped
runthrough, restores the old motor handler only if one existed, and then
evaluates the undefined name `logger`, raising `NameError` on the success
path. -/
def Protocol.virtual_run (p : Protocol) (loggerDisabled : Bool) :
    Protocol × Bool × Option Err :=
  let old_motor := p.motor
  match
    (match old_motor with
     | some m =>
       if p.handlers.contains m then
         Except.ok { p with handlers := removeFirstNat p.handlers m }
       else Except.error (Err.valueError "list.remove(x): x not in list")
     | none => Except.ok p) with
  | .error e => (p, loggerDisabled, some e)
  | .ok p =>
    let pr := p.attach_motor
    match pr.1.handler_runthrough loggerDisabled pr.2 with
    | (p, logger2, some e) => (p, logger2, some e)
    | (p, logger2, none) =>
      let p := match old_motor with | some m => { p with motor := some m } | none => p
      (p, logger2, some (.nameError "name logger is not defined"))

/-- Concrete fixture: empty protocol. -/
def exEmpty : Protocol := {}

/-- Concrete fixture: one microplate in slot A1 and a p10 on axis a. -/
def exP : Protocol :=
  ((exEmpty.add_container (0, 0) "microplate.96" none).1.add_instrument "a" "p10").1

/-- Concrete fixture: exP plus one transfer command. -/
def exPT : Protocol :=
  (exP.transfer ⟨.coord (0, 0), (0, 0)⟩ ⟨.coord (0, 0), (1, 0)⟩ (some 10) none
    true true none).1

/-- Concrete fixture: disjoint counterpart of exP (slot B1, axis b, p200). -/
def exQ : Protocol :=
  ((exEmpty.add_container (1, 0) "microplate.96" none).1.add_instrument "b" "p200").1

/-- Concrete fixture: exQ plus one transfer command. -/
def exQT : Protocol :=
  (exQ.transfer ⟨.coord (1, 0), (0, 0)⟩ ⟨.coord (1, 0), (1, 0)⟩ (some 100) none
    true true none).1

theorem set_info_structural (p : Protocol) (i : Info) :
    (p.set_info i).ingredients = p.ingredients ∧
    (p.set_info i).head = p.head ∧
    (p.set_info i).container_labels = p.container_labels ∧
    (p.set_info i).label_case = p.label_case ∧
    (p.set_info i).containers = p.containers ∧
    (p.set_info i).commands = p.commands ∧
    (p.set_info i).context = p.context ∧
    (p.set_info i).handlers = p.handlers ∧
    (p.set_info i).next_handler = p.next_handler ∧
    (p.set_info i).motor = p.motor ∧
    (p.set_info i).partial_proxy = p.partial_proxy ∧
    (p.set_info i).calibration = p.calibration := by
  unfold Protocol.set_info
  cases i.name <;> cases i.description <;> cases i.author <;>
    cases i.created <;> cases i.updated <;> cases i.version <;> simp

theorem set_info_hashv (p : Protocol) (i : Info) : (p.set_info i).hashv = p.hashv := by
  obtain ⟨h1, h2, h3, h4, h5, h6, -⟩ := set_info_structural p i
  unfold Protocol.hashv
  rw [h1, h2, h3, h4, h5, h6]

theorem set_info_no_version (p : Protocol) (i : Info) (hv : i.version = none) :
    (p.set_info i).version = p.version ∧ (p.set_info i).version_hash = p.version_hash := by
  unfold Protocol.set_info
  rw [hv]
  cases i.name <;> cases i.description <;> cases i.author <;>
    cases i.created <;> cases i.updated <;> simp

theorem bump_version_structural (p : Protocol) (impact : String) :
    (p.bump_version impact).1.hashv = p.hashv := by
  unfold Protocol.bump_version
  by_cases h : p.version_hash = some p.hashv <;>
    simp only [h, if_true, if_false, ite_true, ite_false] <;>
    split_ifs <;> simp [Protocol.hashv]

/-- Claim C4 (confirmed): calling `bump_version` twice in a row with no
intervening mutation yields the same version string both times and leaves
the document in the same state: the first call snapshots the hash (when it
changed since the last bump), so the second call finds the hash unchanged
and is a no-op. -/
theorem bump_version_idempotent (p : Protocol) (impact : String) :
    (p.bump_version impact).1.bump_version impact = p.bump_version impact := by
  unfold Protocol.bump_version
  by_cases h : p.version_hash = some p.hashv
  · simp [h]
  · simp only [h, if_false, ite_false]
    split_ifs with h1 h2 h3 <;> simp_all [Protocol.hashv, Protocol.versionStr, versionString]

theorem normalize_volume_ul10 :
    normalize_volume (some 10) none none false = .ok (some 10) := by
  simp [normalize_volume]

theorem normalize_volume_ml001 :
    normalize_volume none (some (1 / 100)) none false = .ok (some 10) := by
  simp only [normalize_volume]
  norm_num
  intro h
  simp at h

theorem normalize_volume_conflict :
    normalize_volume (some 10) (some 1) none false =
      .error (.valueError "Conflicting volumes for ml and ul.") := by
  simp only [normalize_volume]
  norm_num
  intro h
  simp at h

theorem normalize_volume_zero (v : Option Rat) :
    normalize_volume (some 0) v none false =
      .error (.valueError "Volume must exceed 0.") := by
  simp [normalize_volume]

/-- Claim C7 (confirmed): `transfer(start, end, ul=10)` and
`transfer(start, end, ml=0.01)` behave identically (a milliliter quantity
is normalized as `ml * 1000` microliters, and `0.01 * 1000 = 10`);
`transfer` with both `ul=10` and `ml=1` raises because `ml * 1000 ≠ ul`;
and `transfer` with a zero volume raises. -/
theorem transfer_volume_consistency :
    (∀ (p : Protocol) (s e : Addr) (b t : Bool) (tool : Option String),
      p.transfer s e (some 10) none b t tool =
        p.transfer s e none (some (1 / 100)) b t tool) ∧
    (∀ (p : Protocol) (s e : Addr) (b t : Bool) (tool : Option String),
      p.transfer s e (some 10) (some 1) b t tool =
        (p, some (.valueError "Conflicting volumes for ml and ul."))) ∧
    (∀ (p : Protocol) (s e : Addr) (b t : Bool) (tool : Option String) (v : Option Rat),
      p.transfer s e (some 0) v b t tool =
        (p, some (.valueError "Volume must exceed 0."))) := by
  refine ⟨fun p s e b t tool => ?_, fun p s e b t tool => ?_, fun p s e b t tool v => ?_⟩
  · unfold Protocol.transfer
    rw [normalize_volume_ul10, normalize_volume_ml001]
  · unfold Protocol.transfer
    rw [normalize_volume_conflict]
  · unfold Protocol.transfer
    rw [normalize_volume_zero]

/-- Claim C10 (confirmed): metadata-only `set_info` (no version argument)
leaves the structural hash unchanged; documents with identical structural
fields compare equal under `__eq__` regardless of metadata; and after a
metadata-only change, `bump_version` is a no-op provided the version hash
was current (a bump had happened with no structural change since). -/
theorem set_info_metadata_frame :
    (∀ (p : Protocol) (i : Info), i.version = none → (p.set_info i).hashv = p.hashv) ∧
    (∀ p q : Protocol, p.ingredients = q.ingredients → p.head = q.head →
      p.container_labels = q.container_labels → p.label_case = q.label_case →
      p.containers = q.containers → p.commands = q.commands → p.eqb q = true) ∧
    (∀ (p : Protocol) (i : Info) (impact : String), i.version = none →
      p.version_hash = some p.hashv →
      (p.set_info i).bump_version impact = (p.set_info i, .ok p.versionStr)) := by
  refine ⟨fun p i _ => set_info_hashv p i, fun p q h1 h2 h3 h4 h5 h6 => ?_, ?_⟩
  · simp only [Protocol.eqb, Protocol.hashv, h1, h2, h3, h4, h5, h6, decide_eq_true_eq]
  · intro p i impact hv hb
    obtain ⟨hver, hvh⟩ := set_info_no_version p i hv
    unfold Protocol.bump_version
    rw [set_info_hashv, hvh, hb]
    simp [Protocol.versionStr, hver]

theorem set_info_metadata_frame_witness :
    (({ name := some "n" } : Info).version = none ∧
      ((exP.set_info { name := some "n" }).hashv = exP.hashv)) ∧
    (exPT.eqb { exPT with author := some "someone", created := some "today" } = true) ∧
    ({ exP with version_hash := some exP.hashv }.set_info { name := some "n" }).bump_version
        "minor" =
      ({ exP with version_hash := some exP.hashv }.set_info { name := some "n" },
        .ok { exP with version_hash := some exP.hashv }.versionStr) := by
  refine ⟨⟨rfl, set_info_metadata_frame.1 exP { name := some "n" } rfl⟩, ?_, ?_⟩
  · exact set_info_metadata_frame.2.1 exPT _ rfl rfl rfl rfl rfl rfl
  · exact set_info_metadata_frame.2.2 { exP with version_hash := some exP.hashv }
      { name := some "n" } "minor" rfl rfl

/-- Claim C9 (code bug): `Protocol.calibrate_instrument(axis, top, blowout,
droptip, bottom)` forwards only `top`, `blowout` and `droptip` to the
context; the `bottom` offset is accepted but dropped, so the context
records `None` for it instead of the given value. -/
theorem calibrate_instrument_drops_bottom :
    (exP.calibrate_instrument "a" (some 1) (some 2) (some 3) (some 4)).2 = none ∧
    dictLookup (exP.calibrate_instrument "a" (some 1) (some 2) (some 3)
        (some 4)).1.context.instrument_calibration "a" =
      some { top := some 1, blowout := some 2, droptip := some 3, bottom := none } ∧
    ¬ dictLookup (exP.calibrate_instrument "a" (some 1) (some 2) (some 3)
        (some 4)).1.context.instrument_calibration "a" =
      some { top := some 1, blowout := some 2, droptip := some 3, bottom := some 4 } := by
  decide

/-- Claim C6 (code bug): a virtual run does not restore state on all exit
paths.  On an empty protocol with no handlers and no motor handler,
`_virtual_run` leaves the freshly attached virtual motor handler in the
handler list and as the motor handler, and then raises `NameError` on its
last line (the name `logger` is undefined in `_virtual_run`); moreover
`_handler_runthrough` always leaves `logger.disabled = False` instead of
restoring the value it had before the scoped run. -/
theorem virtual_run_not_restored :
    ((exEmpty.virtual_run false).2.2 = some (.nameError "name logger is not defined") ∧
      exEmpty.handlers = [] ∧ (exEmpty.virtual_run false).1.handlers = [0] ∧
      exEmpty.motor = none ∧ (exEmpty.virtual_run false).1.motor = some 0) ∧
    (∀ (p : Protocol) (h : Nat), (p.handler_runthrough true h).2.1 = false) := by
  constructor
  · decide
  · intro p h
    unfold Protocol.handler_runthrough
    dsimp only

/-- Concrete fixture: a p10 installed on axis a, nothing else. -/
def exI1 : Protocol := (exEmpty.add_instrument "a" "p10").1

/-- Concrete fixture: a microplate at A1 labeled "Foo". -/
def exL : Protocol := (exEmpty.add_container (0, 0) "microplate.96" (some "Foo")).1

/-- Claim C1 (counterexample): a declaration call that raises a validation
error can leave the document modified: installing a second instrument on an
occupied axis raises `InstrumentConflict`, yet the head already holds the
new instrument name afterwards. -/
theorem add_instrument_conflict_mutates :
    (exI1.add_instrument "a" "p200").2 =
      some (.instrumentConflict "Axis a already allocated to p10") ∧
    (exI1.add_instrument "a" "p200").1 ≠ exI1 ∧
    (exI1.add_instrument "a" "p200").1.head = [("a", "p200")] ∧
    exI1.head = [("a", "p10")] := by
  decide

/-- Claim C1 (amended): `calibrate`, `calibrate_instrument` (which cannot
raise) and `set_info` (which cannot raise once the version argument is
well-formed, as modelled) leave the document unmodified on failure, as does
`add_container` without a label or failing its duplicate-label check; but
`add_container` with a fresh label writes the label maps before the
container validation (so only containers, head and commands are untouched
when the context raises), and `add_instrument` writes the head entry before
the instrument validation. -/
theorem declaration_atomicity_amended :
    (∀ (p : Protocol) (t : CalTarget) (d : List (String × Rat)),
      (p.calibrate t d).2 ≠ none → (p.calibrate t d).1 = p) ∧
    (∀ (p : Protocol) (axis : String) (top blowout droptip bottom : Option Rat),
      (p.calibrate_instrument axis top blowout droptip bottom).2 = none) ∧
    (∀ (p : Protocol) (slot : Coord) (nm : String),
      (p.add_container slot nm none).2 ≠ none → (p.add_container slot nm none).1 = p) ∧
    (∀ (p : Protocol) (slot : Coord) (nm lab : String),
      (dictLookup p.container_labels (strToLower lab)).isSome →
      p.add_container slot nm (some lab) =
        (p, some (.containerConflict ("Label already in use: " ++ lab)))) ∧
    (∀ (p : Protocol) (slot : Coord) (nm lab : String),
      (dictLookup p.container_labels (strToLower lab)).isSome = false →
      (p.add_container slot nm (some lab)).2 ≠ none →
      (p.add_container slot nm (some lab)).1.containers = p.containers ∧
      (p.add_container slot nm (some lab)).1.head = p.head ∧
      (p.add_container slot nm (some lab)).1.commands = p.commands ∧
      (p.add_container slot nm (some lab)).1.container_labels =
        dictInsert p.container_labels (strToLower lab) slot) ∧
    (∀ (p : Protocol) (axis nm : String),
      (p.add_instrument axis nm).1.head = dictInsert p.head axis nm) := by
  refine ⟨?_, ?_, ?_, ?_, ?_, ?_⟩
  · intro p t d h
    cases t with
    | pos c => simp [Protocol.calibrate] at h
    | addr a =>
      simp only [Protocol.calibrate] at h ⊢
      rcases hna : p.normalize_address a with e | pr <;> simp [hna] at h ⊢
  · intro p axis top blowout droptip bottom
    rfl
  · intro p slot nm h
    simp only [Protocol.add_container, normalize_position, addContainerFinish] at h ⊢
    rcases hc : ctx_add_container p.context slot nm with e | c <;> simp [hc] at h ⊢
  · intro p slot nm lab h
    simp [Protocol.add_container, normalize_position, h]
  · intro p slot nm lab h herr
    simp only [Protocol.add_container, normalize_position, addContainerFinish, h,
      Bool.false_eq_true, if_false, ite_false] at herr ⊢
    rcases hlc : dictLookup p.label_case (strToLower lab) with _ | v <;>
      simp only [hlc, Option.isSome_none, Option.isSome_some, if_true, if_false,
        ite_true, ite_false] at herr ⊢ <;>
      rcases hc : ctx_add_container p.context slot nm with e | c <;>
      simp [hc] at herr ⊢
  · intro p axis nm
    simp only [Protocol.add_instrument]
    rcases hc : ctx_add_instrument { p with head := dictInsert p.head axis nm }.context
        axis nm with e | c <;> simp [hc]

theorem declaration_atomicity_amended_witness :
    ((exEmpty.calibrate (.addr ⟨.label "nolabel", (0, 0)⟩) []).2 ≠ none ∧
      (exEmpty.calibrate (.addr ⟨.label "nolabel", (0, 0)⟩) []).1 = exEmpty) ∧
    (exP.calibrate_instrument "a" (some 1) none none none).2 = none ∧
    ((exP.add_container (0, 0) "tiprack.10ul" none).2 ≠ none ∧
      (exP.add_container (0, 0) "tiprack.10ul" none).1 = exP) ∧
    (exL.add_container (1, 0) "microplate.96" (some "fOo") =
      (exL, some (.containerConflict "Label already in use: fOo"))) ∧
    ((exP.add_container (0, 0) "tiprack.10ul" (some "New")).1.containers = exP.containers ∧
      (exP.add_container (0, 0) "tiprack.10ul" (some "New")).1.head = exP.head ∧
      (exP.add_container (0, 0) "tiprack.10ul" (some "New")).1.commands = exP.commands ∧
      (exP.add_container (0, 0) "tiprack.10ul" (some "New")).1.container_labels =
        dictInsert exP.container_labels (strToLower "New") (0, 0)) ∧
    (exI1.add_instrument "a" "p10").1.head = dictInsert exI1.head "a" "p10" := by
  refine ⟨⟨by decide, ?_⟩, ?_, ⟨by decide, ?_⟩, ?_, ?_, ?_⟩
  · exact declaration_atomicity_amended.1 exEmpty (.addr ⟨.label "nolabel", (0, 0)⟩) []
      (by decide)
  · exact declaration_atomicity_amended.2.1 exP "a" (some 1) none none none
  · exact declaration_atomicity_amended.2.2.1 exP (0, 0) "tiprack.10ul" (by decide)
  · have h := declaration_atomicity_amended.2.2.2.1 exL (1, 0) "microplate.96" "fOo"
      (by decide)
    exact h
  · have h := declaration_atomicity_amended.2.2.2.2.1 exP (0, 0) "tiprack.10ul" "New"
      (by decide) (by decide)
    exact h
  · exact declaration_atomicity_amended.2.2.2.2.2 exI1 "a" "p10"

theorem ctx_run_command_ok (c : Context) (cmd : Command) (c' : Context)
    (h : ctx_run_command c cmd = .ok c') :
    c' = { c with executed := c.executed ++ [cmd] } := by
  cases cmd <;> simp only [ctx_run_command] at h <;> (repeat' split at h) <;> simp_all

theorem ctx_add_container_step_executed (c : Context) (x : Coord × String) :
    (match ctx_add_container c x.1 x.2 with
      | .ok c2 => c2 | .error _ => c).executed = c.executed := by
  rcases h : dictLookup c.containers x.1 with _ | n
  · simp only [ctx_add_container, h]
  · simp only [ctx_add_container, h]
    split
    · rename_i c2 heq
      split at heq
      · cases heq; rfl
      · cases heq
    · rfl

theorem ctx_add_instrument_step_executed (c : Context) (x : String × String) :
    (match ctx_add_instrument c x.1 x.2 with
      | .ok c2 => c2 | .error _ => c).executed = c.executed := by
  rcases h : dictLookup c.instruments x.1 with _ | n
  · simp only [ctx_add_instrument, h]
  · simp only [ctx_add_instrument, h]
    split
    · rename_i c2 heq
      split at heq
      · cases heq; rfl
      · cases heq
    · rfl

theorem initialize_context_executed (p : Protocol) :
    (p.initialize_context).executed = [] := by
  unfold Protocol.initialize_context
  have h1 : ∀ (l : List (Coord × String)) (c : Context),
      (l.foldl (fun c sv => match ctx_add_container c sv.1 sv.2 with
        | .ok c2 => c2 | .error _ => c) c).executed = c.executed := by
    intro l
    induction l with
    | nil => intro c; rfl
    | cons x xs ih => intro c; rw [List.foldl_cons, ih, ctx_add_container_step_executed]
  have h2 : ∀ (l : List (String × String)) (c : Context),
      (l.foldl (fun c av => match ctx_add_instrument c av.1 av.2 with
        | .ok c2 => c2 | .error _ => c) c).executed = c.executed := by
    intro l
    induction l with
    | nil => intro c; rfl
    | cons x xs ih => intro c; rw [List.foldl_cons, ih, ctx_add_instrument_step_executed]
  rw [h2, h1]

theorem run_go_trace (C : List Command) (n : Nat) :
    ∀ (m i : Nat) (p : Protocol), p.commands = C → i + m = C.length →
    p.context.executed = C.take i →
    (run_go p (List.range' i m) n).2.2 = none →
    (run_go p (List.range' i m) n).2.1 =
      (List.range' (i + 1) m).map (fun k => ((k, n), C.take k)) := by
  intro m
  induction m with
  | zero => intro i p hC hlen hex hok; simp [run_go]
  | succ m ih =>
    intro i p hC hlen hex hok
    have hi : i < C.length := by omega
    rw [List.range'_succ] at hok ⊢
    have hcmd : p.commands[i]? = some C[i] := by
      rw [hC]
      exact List.getElem?_eq_getElem hi
    rcases hr : ctx_run_command p.context C[i] with e | c'
    · have hstep : run_go p (i :: List.range' (i + 1) m) n = (p, [], some e) := by
        simp only [run_go, Protocol.run_one, hcmd, hr]
      rw [hstep] at hok
      exact Option.noConfusion hok
    · have hc' := ctx_run_command_ok p.context C[i] c' hr
      have hexec : c'.executed = C.take (i + 1) := by
        rw [hc']
        dsimp only
        rw [hex, List.take_succ, List.getElem?_eq_getElem hi]
        rfl
      rcases hgo : run_go { p with context := c' } (List.range' (i + 1) m) n
        with ⟨p2, ys, err⟩
      have hstep : run_go p (i :: List.range' (i + 1) m) n =
          (p2, ((i + 1, n), ({ p with context := c' } : Protocol).context.executed) :: ys,
            err) := by
        simp only [run_go, Protocol.run_one, hcmd, hr, hgo]
      rw [hstep] at hok ⊢
      dsimp only at hok ⊢
      have hrec := ih (i + 1) { p with context := c' } hC (by omega) hexec
      rw [hgo] at hrec
      specialize hrec hok
      dsimp only at hrec
      rw [List.range'_succ, List.map_cons, hrec, hexec]

theorem run_unfold (p : Protocol)
    (hpp : p.validate "Cannot run an incomplete PartialProtocol." = none) :
    p.run = ((run_go { p with context := p.initialize_context }
        (List.range p.commands.length) p.commands.length).1,
      ((0, p.commands.length), (p.initialize_context).executed) ::
        (run_go { p with context := p.initialize_context }
          (List.range p.commands.length) p.commands.length).2.1,
      (run_go { p with context := p.initialize_context }
        (List.range p.commands.length) p.commands.length).2.2) := by
  unfold Protocol.run
  rw [hpp]

/-- Claim C5 (confirmed): `run()` is a step-wise generator: it rebuilds a
fresh context (its result does not depend on the incoming context at all),
yields `(0, n)` before executing anything, and then, per resumption,
executes exactly one command — in command-append order — and yields
`(k, n)` with exactly the first `k` commands executed at that point. -/
theorem run_stepwise_generator (p : Protocol)
    (hpp : p.validate "Cannot run an incomplete PartialProtocol." = none)
    (hok : (p.run).2.2 = none) :
    (p.run).2.1 = (List.range (p.commands.length + 1)).map
      (fun k => ((k, p.commands.length), p.commands.take k)) ∧
    ∀ c : Context, ({ p with context := c } : Protocol).run = p.run := by
  constructor
  · rw [run_unfold p hpp] at hok ⊢
    dsimp only at hok ⊢
    rw [List.range_eq_range'] at hok ⊢
    have htr := run_go_trace p.commands p.commands.length p.commands.length 0
      { p with context := p.initialize_context } rfl (by omega)
      (by simp [initialize_context_executed])
    specialize htr hok
    rw [htr, initialize_context_executed]
    rw [List.range_eq_range', List.range'_succ (0 : Nat)]
    simp only [List.map_cons, Nat.zero_add]
    rw [List.take_zero]
  · intro c
    have hpp2 : ({ p with context := c } : Protocol).validate
        "Cannot run an incomplete PartialProtocol." = none := hpp
    unfold Protocol.run
    rw [hpp, hpp2]
    rfl

theorem run_stepwise_generator_witness :
    exPT.validate "Cannot run an incomplete PartialProtocol." = none ∧
    (exPT.run).2.2 = none ∧
    (exPT.run).2.1 = (List.range (exPT.commands.length + 1)).map
      (fun k => ((k, exPT.commands.length), exPT.commands.take k)) ∧
    ({ exPT with context := { executed := exPT.commands } } : Protocol).run = exPT.run := by
  refine ⟨by decide, by decide, ?_, ?_⟩
  · exact (run_stepwise_generator exPT (by decide) (by decide)).1
  · exact (run_stepwise_generator exPT (by decide) (by decide)).2
      { executed := exPT.commands }

theorem dictLookup_append {α β : Type} [DecidableEq α] (l1 l2 : List (α × β)) (k : α) :
    dictLookup (l1 ++ l2) k = (dictLookup l1 k).orElse (fun _ => dictLookup l2 k) := by
  induction l1 with
  | nil => simp [dictLookup, Option.orElse]
  | cons x xs ih =>
    rcases x with ⟨a, b⟩
    by_cases h : a = k
    · simp [dictLookup, h, Option.orElse]
    · simp only [List.cons_append, dictLookup, if_neg h]
      exact ih

theorem dictInsert_of_lookup_none {α β : Type} [DecidableEq α] (l : List (α × β)) (k : α)
    (v : β) (h : dictLookup l k = none) : dictInsert l k v = l ++ [(k, v)] := by
  induction l with
  | nil => rfl
  | cons x xs ih =>
    rcases x with ⟨a, b⟩
    by_cases h1 : a = k
    · simp [dictLookup, h1] at h
    · simp only [dictLookup, if_neg h1] at h
      simp [dictInsert, h1, ih h]

theorem dictInsert_self {α β : Type} [DecidableEq α] (l : List (α × β)) (k : α) (v : β)
    (h : dictLookup l k = some v) : dictInsert l k v = l := by
  induction l with
  | nil => simp [dictLookup] at h
  | cons x xs ih =>
    rcases x with ⟨a, b⟩
    by_cases h1 : a = k
    · simp only [dictLookup, if_pos h1] at h
      cases h
      simp [dictInsert, h1]
    · simp only [dictLookup, if_neg h1] at h
      simp [dictInsert, h1, ih h]

theorem dictLookup_of_ne_head {α β : Type} [DecidableEq α] (x : α × β) (xs : List (α × β))
    (k : α) (h : x.1 ≠ k) : dictLookup (x :: xs) k = dictLookup xs k := by
  rcases x with ⟨a, b⟩
  simp only [dictLookup]
  rw [if_neg h]

theorem foldl_dictInsert_append {α β : Type} [DecidableEq α] :
    ∀ (l acc : List (α × β)),
    (∀ kv ∈ l, dictLookup acc kv.1 = none) → (l.map Prod.fst).Nodup →
    l.foldl (fun a kv => dictInsert a kv.1 kv.2) acc = acc ++ l := by
  intro l
  induction l with
  | nil => intro acc _ _; simp
  | cons kv rest ih =>
    intro acc hfresh hnd
    rw [List.foldl_cons, dictInsert_of_lookup_none acc kv.1 kv.2 (hfresh kv (by simp))]
    rw [List.map_cons, List.nodup_cons] at hnd
    have hfresh' : ∀ x ∈ rest, dictLookup (acc ++ [kv]) x.1 = none := by
      intro x hx
      have hxk : x.1 ≠ kv.1 := fun hcontra =>
        hnd.1 (hcontra ▸ List.mem_map_of_mem Prod.fst hx)
      rw [dictLookup_append, hfresh x (List.mem_cons_of_mem kv hx)]
      rcases kv with ⟨a, b⟩
      simp only [Option.orElse]
      simp [dictLookup, Ne.symm hxk]
    rw [ih (acc ++ [kv]) hfresh' hnd.2, List.append_assoc]
    rfl

theorem stepFold_append {σ α : Type} (f : σ → α → σ × Option Err) :
    ∀ (xs ys : List α) (s : σ),
    stepFold f s (xs ++ ys) =
      match stepFold f s xs with
      | (s', none) => stepFold f s' ys
      | (s', some e) => (s', some e) := by
  intro xs
  induction xs with
  | nil => intro ys s; rfl
  | cons x rest ih =>
    intro ys s
    rcases hf : f s x with ⟨s', e⟩
    cases e with
    | none =>
      simp only [List.cons_append, stepFold, hf]
      exact ih ys s'
    | some e => simp only [List.cons_append, stepFold, hf]

theorem filter_key_length_one {α β : Type} [DecidableEq α] :
    ∀ (l : List (α × β)) (s : α) (t : β), (l.map Prod.fst).Nodup →
    dictLookup l s = some t →
    (l.filter (fun sv => decide (sv.1 = s))).length = 1 := by
  intro l
  induction l with
  | nil => intro s t _ h; simp [dictLookup] at h
  | cons x xs ih =>
    intro s t hnd h
    rcases x with ⟨a, b⟩
    rw [List.map_cons, List.nodup_cons] at hnd
    by_cases hx : a = s
    · have hnone : xs.filter (fun sv => decide (sv.1 = s)) = [] := by
        apply List.filter_eq_nil_iff.mpr
        intro y hy
        simp only [decide_eq_true_eq]
        intro hys
        apply hnd.1
        have : y.1 ∈ xs.map Prod.fst := List.mem_map_of_mem Prod.fst hy
        rw [hys, ← hx] at this
        exact this
      simp [List.filter_cons, hx, hnone]
    · have h' : dictLookup xs s = some t := by
        simpa [dictLookup, hx] using h
      simp only [List.filter_cons]
      simp only [decide_eq_true_eq]
      rw [if_neg (by simpa using hx)]
      exact ih s t hnd.2 h'

theorem add_container_fresh_ok_fields (p : Protocol) (slot : Coord) (nm : String)
    (hfresh : dictLookup p.containers slot = none)
    (hok : (p.add_container slot nm none).2 = none) :
    (p.add_container slot nm none).1.containers = p.containers ++ [(slot, nm)] ∧
    (p.add_container slot nm none).1.container_labels = p.container_labels ∧
    (p.add_container slot nm none).1.label_case = p.label_case ∧
    (p.add_container slot nm none).1.head = p.head ∧
    (p.add_container slot nm none).1.commands = p.commands ∧
    (p.add_container slot nm none).1.ingredients = p.ingredients := by
  rcases hc : ctx_add_container p.context slot nm with e | c
  · exfalso
    simp only [Protocol.add_container, normalize_position, addContainerFinish, hc] at hok
    exact Option.noConfusion hok
  · simp [Protocol.add_container, normalize_position, addContainerFinish, hc,
      dictInsert_of_lookup_none p.containers slot nm hfresh]

theorem add_container_fresh_sync (p : Protocol) (slot : Coord) (nm : String)
    (hfresh : dictLookup p.containers slot = none)
    (hsync : p.context.containers = p.containers) :
    (p.add_container slot nm none).2 = none ∧
    (p.add_container slot nm none).1.containers = p.containers ++ [(slot, nm)] ∧
    (p.add_container slot nm none).1.container_labels = p.container_labels ∧
    (p.add_container slot nm none).1.label_case = p.label_case ∧
    (p.add_container slot nm none).1.head = p.head ∧
    (p.add_container slot nm none).1.commands = p.commands ∧
    (p.add_container slot nm none).1.ingredients = p.ingredients ∧
    (p.add_container slot nm none).1.context.containers = p.containers ++ [(slot, nm)] ∧
    (p.add_container slot nm none).1.context.instruments = p.context.instruments ∧
    (p.add_container slot nm none).1.context.executed = p.context.executed := by
  have hc : ctx_add_container p.context slot nm =
      .ok { p.context with containers := p.context.containers ++ [(slot, nm)] } := by
    unfold ctx_add_container
    rw [hsync, hfresh]
  simp [Protocol.add_container, normalize_position, addContainerFinish, hc,
    dictInsert_of_lookup_none p.containers slot nm hfresh, hsync]

theorem add_instrument_ok_fields (p : Protocol) (axis nm : String)
    (hok : (p.add_instrument axis nm).2 = none) :
    (p.add_instrument axis nm).1.head = dictInsert p.head axis nm ∧
    (p.add_instrument axis nm).1.containers = p.containers ∧
    (p.add_instrument axis nm).1.container_labels = p.container_labels ∧
    (p.add_instrument axis nm).1.label_case = p.label_case ∧
    (p.add_instrument axis nm).1.commands = p.commands ∧
    (p.add_instrument axis nm).1.ingredients = p.ingredients := by
  rcases hc : ctx_add_instrument
      { p with head := dictInsert p.head axis nm }.context axis nm with e | c
  · exfalso
    simp only [Protocol.add_instrument, hc] at hok
    exact Option.noConfusion hok
  · simp [Protocol.add_instrument, hc]

theorem add_instrument_sync (p : Protocol) (axis nm : String)
    (hsync : p.context.instruments = p.head)
    (hcompat : ∀ n', dictLookup p.head axis = some n' → n' = nm) :
    (p.add_instrument axis nm).2 = none ∧
    (p.add_instrument axis nm).1.head = dictInsert p.head axis nm ∧
    (p.add_instrument axis nm).1.containers = p.containers ∧
    (p.add_instrument axis nm).1.container_labels = p.container_labels ∧
    (p.add_instrument axis nm).1.label_case = p.label_case ∧
    (p.add_instrument axis nm).1.commands = p.commands ∧
    (p.add_instrument axis nm).1.ingredients = p.ingredients ∧
    (p.add_instrument axis nm).1.context.instruments = dictInsert p.head axis nm ∧
    (p.add_instrument axis nm).1.context.containers = p.context.containers ∧
    (p.add_instrument axis nm).1.context.executed = p.context.executed := by
  have hctx : ({ p with head := dictInsert p.head axis nm } : Protocol).context =
      p.context := rfl
  rcases hl : dictLookup p.head axis with _ | n'
  · have hc : ctx_add_instrument { p with head := dictInsert p.head axis nm }.context
        axis nm = .ok { p.context with instruments := p.context.instruments ++ [(axis, nm)] } := by
      unfold ctx_add_instrument
      rw [hctx, hsync, hl]
    simp [Protocol.add_instrument, hc, hsync,
      dictInsert_of_lookup_none p.head axis nm hl]
  · have hl' : dictLookup p.head axis = some nm := by rw [hl, hcompat n' hl]
    have hc : ctx_add_instrument { p with head := dictInsert p.head axis nm }.context
        axis nm = .ok p.context := by
      unfold ctx_add_instrument
      rw [hctx, hsync, hl']
      simp
    simp [Protocol.add_instrument, hc, hsync, dictInsert_self p.head axis nm hl']

theorem applyContainers_ok_fields :
    ∀ (cs : List (Coord × String)) (p : Protocol),
    (cs.map Prod.fst).Nodup →
    (applyContainers p cs).2 = none →
    (applyContainers p cs).1.containers =
      p.containers ++ cs.filter (fun sv => (dictLookup p.containers sv.1).isNone) ∧
    (applyContainers p cs).1.container_labels = p.container_labels ∧
    (applyContainers p cs).1.label_case = p.label_case ∧
    (applyContainers p cs).1.head = p.head ∧
    (applyContainers p cs).1.commands = p.commands ∧
    (applyContainers p cs).1.ingredients = p.ingredients := by
  intro cs
  induction cs with
  | nil => intro p _ _; simp [applyContainers, stepFold]
  | cons sv rest ih =>
    intro p hnd hok
    rw [List.map_cons, List.nodup_cons] at hnd
    rcases hl : dictLookup p.containers sv.1 with _ | n
    · have hstep : containersStep p sv = p.add_container sv.1 sv.2 none := by
        unfold containersStep
        rw [hl]
      rcases hadd : p.add_container sv.1 sv.2 none with ⟨q, e⟩
      cases e with
      | some e =>
        exfalso
        have h2 : (applyContainers p (sv :: rest)).2 = some e := by
          simp only [applyContainers, stepFold, hstep, hadd]
        rw [h2] at hok
        exact Option.noConfusion hok
      | none =>
        have hfields := add_container_fresh_ok_fields p sv.1 sv.2 hl (by rw [hadd])
        simp only [hadd] at hfields
        obtain ⟨g1, g2, g3, g4, g5, g6⟩ := hfields
        have hunf : applyContainers p (sv :: rest) = applyContainers q rest := by
          simp only [applyContainers, stepFold, hstep, hadd]
        rw [hunf] at hok ⊢
        obtain ⟨hc1, hc2, hc3, hc4, hc5, hc6⟩ := ih q hnd.2 hok
        have hfc : rest.filter (fun sv2 => (dictLookup q.containers sv2.1).isNone) =
            rest.filter (fun sv2 => (dictLookup p.containers sv2.1).isNone) := by
          apply List.filter_congr
          intro y hy
          have hyne : y.1 ≠ sv.1 := by
            intro hcontra
            exact hnd.1 (hcontra ▸ List.mem_map_of_mem Prod.fst hy)
          rw [g1, dictLookup_append]
          rcases dictLookup p.containers y.1 with _ | v
          · simp only [Option.orElse]
            simp [dictLookup, Ne.symm hyne]
          · simp [Option.orElse]
        rw [List.filter_cons]
        simp only [hl, Option.isNone_none, if_true, cond_true]
        refine ⟨?_, hc2.trans g2, hc3.trans g3, hc4.trans g4, hc5.trans g5, hc6.trans g6⟩
        rw [hc1, hfc, g1, List.append_assoc]
        rfl
    · by_cases hne : n = sv.2
      · have hstep : containersStep p sv = (p, none) := by
          unfold containersStep
          rw [hl]
          simp [hne]
        have hunf : applyContainers p (sv :: rest) = applyContainers p rest := by
          simp only [applyContainers, stepFold, hstep]
        rw [hunf] at hok ⊢
        obtain ⟨hc1, hc2, hc3, hc4, hc5, hc6⟩ := ih p hnd.2 hok
        rw [List.filter_cons]
        simp only [hl, Option.isNone_some, if_false, cond_false]
        exact ⟨hc1, hc2, hc3, hc4, hc5, hc6⟩
      · exfalso
        have hstep : containersStep p sv = (p, some (.containerConflict
            ("Slot " ++ toString sv.1 ++ " already allocated to " ++ sv.2))) := by
          unfold containersStep
          rw [hl]
          simp [hne]
        have h2 : (applyContainers p (sv :: rest)).2 = some (.containerConflict
            ("Slot " ++ toString sv.1 ++ " already allocated to " ++ sv.2)) := by
          simp only [applyContainers, stepFold, hstep]
        rw [h2] at hok
        exact Option.noConfusion hok

theorem labelsLoop_ok_fields (inv : List (Coord × String)) :
    ∀ (ls : List (String × Coord)) (q : Protocol),
    (stepFold (labelsStep inv) q ls).2 = none →
    (stepFold (labelsStep inv) q ls).1.container_labels =
      ls.foldl (fun acc lv => dictInsert acc lv.1 lv.2) q.container_labels ∧
    (stepFold (labelsStep inv) q ls).1.containers = q.containers ∧
    (stepFold (labelsStep inv) q ls).1.label_case = q.label_case ∧
    (stepFold (labelsStep inv) q ls).1.head = q.head ∧
    (stepFold (labelsStep inv) q ls).1.commands = q.commands ∧
    (stepFold (labelsStep inv) q ls).1.ingredients = q.ingredients ∧
    (stepFold (labelsStep inv) q ls).1.context = q.context := by
  intro ls
  induction ls with
  | nil => intro q _; simp [stepFold]
  | cons lv rest ih =>
    intro q hok
    rcases hl : dictLookup inv lv.2 with _ | l
    · have hstep : labelsStep inv q lv =
          ({ q with container_labels := dictInsert q.container_labels lv.1 lv.2 }, none) := by
        unfold labelsStep
        rw [hl]
      have hunf : stepFold (labelsStep inv) q (lv :: rest) =
          stepFold (labelsStep inv)
            { q with container_labels := dictInsert q.container_labels lv.1 lv.2 } rest := by
        simp only [stepFold, hstep]
      rw [hunf] at hok ⊢
      obtain ⟨h1, h2, h3, h4, h5, h6, h7⟩ := ih _ hok
      exact ⟨by rw [h1, List.foldl_cons], h2, h3, h4, h5, h6, h7⟩
    · by_cases hne : l = lv.1
      · have hstep : labelsStep inv q lv =
            ({ q with container_labels := dictInsert q.container_labels lv.1 lv.2 }, none) := by
          unfold labelsStep
          rw [hl]
          simp [hne]
        have hunf : stepFold (labelsStep inv) q (lv :: rest) =
            stepFold (labelsStep inv)
              { q with container_labels := dictInsert q.container_labels lv.1 lv.2 } rest := by
          simp only [stepFold, hstep]
        rw [hunf] at hok ⊢
        obtain ⟨h1, h2, h3, h4, h5, h6, h7⟩ := ih _ hok
        exact ⟨by rw [h1, List.foldl_cons], h2, h3, h4, h5, h6, h7⟩
      · exfalso
        have hstep : labelsStep inv q lv = (q, some (.containerConflict
            ("Conflicting labels at " ++ toString lv.2 ++ ": " ++ l ++ " vs " ++ lv.1))) := by
          unfold labelsStep
          rw [hl]
          simp [hne]
        have h2 : (stepFold (labelsStep inv) q (lv :: rest)).2 = some (.containerConflict
            ("Conflicting labels at " ++ toString lv.2 ++ ": " ++ l ++ " vs " ++ lv.1)) := by
          simp only [stepFold, hstep]
        rw [h2] at hok
        exact Option.noConfusion hok

theorem applyLabels_ok_fields (p : Protocol) (ls : List (String × Coord))
    (hok : (applyLabels p ls).2 = none) :
    (applyLabels p ls).1.container_labels =
      ls.foldl (fun acc lv => dictInsert acc lv.1 lv.2) p.container_labels ∧
    (applyLabels p ls).1.containers = p.containers ∧
    (applyLabels p ls).1.label_case = p.label_case ∧
    (applyLabels p ls).1.head = p.head ∧
    (applyLabels p ls).1.commands = p.commands ∧
    (applyLabels p ls).1.ingredients = p.ingredients ∧
    (applyLabels p ls).1.context = p.context := by
  exact labelsLoop_ok_fields (invertLabels p.container_labels) ls p hok

theorem applyLabelCase_fields :
    ∀ (lc : List (String × String)) (p : Protocol),
    (applyLabelCase p lc).label_case =
      lc.foldl (fun acc kv => dictInsert acc kv.1 kv.2) p.label_case ∧
    (applyLabelCase p lc).containers = p.containers ∧
    (applyLabelCase p lc).container_labels = p.container_labels ∧
    (applyLabelCase p lc).head = p.head ∧
    (applyLabelCase p lc).commands = p.commands ∧
    (applyLabelCase p lc).ingredients = p.ingredients ∧
    (applyLabelCase p lc).context = p.context := by
  intro lc
  induction lc with
  | nil => intro p; simp [applyLabelCase]
  | cons kv rest ih =>
    intro p
    have hunf : applyLabelCase p (kv :: rest) =
        applyLabelCase { p with label_case := dictInsert p.label_case kv.1 kv.2 } rest := by
      simp only [applyLabelCase, List.foldl_cons]
    rw [hunf]
    obtain ⟨h1, h2, h3, h4, h5, h6, h7⟩ :=
      ih { p with label_case := dictInsert p.label_case kv.1 kv.2 }
    exact ⟨by rw [h1, List.foldl_cons], h2, h3, h4, h5, h6, h7⟩

theorem applyInstruments_ok_fields :
    ∀ (hs : List (String × String)) (p : Protocol),
    (hs.map Prod.fst).Nodup →
    (applyInstruments p hs).2 = none →
    (applyInstruments p hs).1.head =
      p.head ++ hs.filter (fun av => (dictLookup p.head av.1).isNone) ∧
    (applyInstruments p hs).1.containers = p.containers ∧
    (applyInstruments p hs).1.container_labels = p.container_labels ∧
    (applyInstruments p hs).1.label_case = p.label_case ∧
    (applyInstruments p hs).1.commands = p.commands ∧
    (applyInstruments p hs).1.ingredients = p.ingredients := by
  intro hs
  induction hs with
  | nil => intro p _ _; simp [applyInstruments, stepFold]
  | cons av rest ih =>
    intro p hnd hok
    rw [List.map_cons, List.nodup_cons] at hnd
    rcases hl : dictLookup p.head av.1 with _ | n
    · have hstep : instrumentsStep p av = p.add_instrument av.1 av.2 := by
        unfold instrumentsStep
        rw [hl]
      rcases hadd : p.add_instrument av.1 av.2 with ⟨q, e⟩
      cases e with
      | some e =>
        exfalso
        have h2 : (applyInstruments p (av :: rest)).2 = some e := by
          simp only [applyInstruments, stepFold, hstep, hadd]
        rw [h2] at hok
        exact Option.noConfusion hok
      | none =>
        have hfields := add_instrument_ok_fields p av.1 av.2 (by rw [hadd])
        simp only [hadd] at hfields
        obtain ⟨g1, g2, g3, g4, g5, g6⟩ := hfields
        have hq : q.head = p.head ++ [(av.1, av.2)] := by
          rw [g1]
          exact dictInsert_of_lookup_none p.head av.1 av.2 hl
        have hunf : applyInstruments p (av :: rest) = applyInstruments q rest := by
          simp only [applyInstruments, stepFold, hstep, hadd]
        rw [hunf] at hok ⊢
        obtain ⟨hc1, hc2, hc3, hc4, hc5, hc6⟩ := ih q hnd.2 hok
        have hfc : rest.filter (fun av2 => (dictLookup q.head av2.1).isNone) =
            rest.filter (fun av2 => (dictLookup p.head av2.1).isNone) := by
          apply List.filter_congr
          intro y hy
          have hyne : y.1 ≠ av.1 := by
            intro hcontra
            exact hnd.1 (hcontra ▸ List.mem_map_of_mem Prod.fst hy)
          rw [hq, dictLookup_append]
          rcases dictLookup p.head y.1 with _ | v
          · simp only [Option.orElse]
            simp [dictLookup, Ne.symm hyne]
          · simp [Option.orElse]
        rw [List.filter_cons]
        simp only [hl, Option.isNone_none, if_true, cond_true]
        refine ⟨?_, hc2.trans g2, hc3.trans g3, hc4.trans g4, hc5.trans g5, hc6.trans g6⟩
        rw [hc1, hfc, hq, List.append_assoc]
        rfl
    · by_cases hne : n = av.2
      · have hstep : instrumentsStep p av = p.add_instrument av.1 av.2 := by
          unfold instrumentsStep
          rw [hl]
          simp [hne]
        rcases hadd : p.add_instrument av.1 av.2 with ⟨q, e⟩
        cases e with
        | some e =>
          exfalso
          have h2 : (applyInstruments p (av :: rest)).2 = some e := by
            simp only [applyInstruments, stepFold, hstep, hadd]
          rw [h2] at hok
          exact Option.noConfusion hok
        | none =>
          have hfields := add_instrument_ok_fields p av.1 av.2 (by rw [hadd])
          simp only [hadd] at hfields
          obtain ⟨g1, g2, g3, g4, g5, g6⟩ := hfields
          have hq : q.head = p.head := by
            rw [g1, ← hne]
            exact dictInsert_self p.head av.1 n hl
          have hunf : applyInstruments p (av :: rest) = applyInstruments q rest := by
            simp only [applyInstruments, stepFold, hstep, hadd]
          rw [hunf] at hok ⊢
          obtain ⟨hc1, hc2, hc3, hc4, hc5, hc6⟩ := ih q hnd.2 hok
          have hfc : rest.filter (fun av2 => (dictLookup q.head av2.1).isNone) =
              rest.filter (fun av2 => (dictLookup p.head av2.1).isNone) := by
            rw [hq]
          rw [List.filter_cons]
          simp only [hl, Option.isNone_some, if_false, cond_false]
          refine ⟨?_, hc2.trans g2, hc3.trans g3, hc4.trans g4, hc5.trans g5, hc6.trans g6⟩
          rw [hc1, hfc, hq]
          simp
      · exfalso
        have hstep : instrumentsStep p av = (p, some (.instrumentConflict
            ("Axis " ++ av.1 ++ " already allocated to " ++ av.2))) := by
          unfold instrumentsStep
          rw [hl]
          simp [hne]
        have h2 : (applyInstruments p (av :: rest)).2 = some (.instrumentConflict
            ("Axis " ++ av.1 ++ " already allocated to " ++ av.2)) := by
          simp only [applyInstruments, stepFold, hstep]
        rw [h2] at hok
        exact Option.noConfusion hok

theorem applyCommands_ok_fields :
    ∀ (cs : List Command) (p : Protocol),
    (applyCommands p cs).2 = none →
    (applyCommands p cs).1.commands = p.commands ++ cs ∧
    (applyCommands p cs).1.containers = p.containers ∧
    (applyCommands p cs).1.container_labels = p.container_labels ∧
    (applyCommands p cs).1.label_case = p.label_case ∧
    (applyCommands p cs).1.head = p.head ∧
    (applyCommands p cs).1.ingredients = p.ingredients := by
  intro cs
  induction cs with
  | nil => intro p _; simp [applyCommands, stepFold]
  | cons c rest ih =>
    intro p hok
    rcases hr : ctx_run_command p.context c with e | ctx2
    · exfalso
      have hstep : p.add_command c = (p, some e) := by
        simp only [Protocol.add_command, hr]
      have h2 : (applyCommands p (c :: rest)).2 = some e := by
        simp only [applyCommands, stepFold, hstep]
      rw [h2] at hok
      exact Option.noConfusion hok
    · have hstep : p.add_command c =
          ({ p with context := ctx2, commands := p.commands ++ [c] }, none) := by
        simp only [Protocol.add_command, hr]
      have hunf : applyCommands p (c :: rest) =
          applyCommands { p with context := ctx2, commands := p.commands ++ [c] } rest := by
        simp only [applyCommands, stepFold, hstep]
      rw [hunf] at hok ⊢
      obtain ⟨h1, h2, h3, h4, h5, h6⟩ := ih _ hok
      refine ⟨?_, h2, h3, h4, h5, h6⟩
      rw [h1]
      simp

theorem apply_protocol_ok_fields (a b : Protocol)
    (hndC : (b.containers.map Prod.fst).Nodup)
    (hndH : (b.head.map Prod.fst).Nodup)
    (hok : (a.apply_protocol b).2 = none) :
    (a.apply_protocol b).1.containers =
      a.containers ++ b.containers.filter (fun sv => (dictLookup a.containers sv.1).isNone) ∧
    (a.apply_protocol b).1.container_labels =
      b.container_labels.foldl (fun acc lv => dictInsert acc lv.1 lv.2) a.container_labels ∧
    (a.apply_protocol b).1.label_case =
      b.label_case.foldl (fun acc kv => dictInsert acc kv.1 kv.2) a.label_case ∧
    (a.apply_protocol b).1.head =
      a.head ++ b.head.filter (fun av => (dictLookup a.head av.1).isNone) ∧
    (a.apply_protocol b).1.commands = a.commands ++ b.commands ∧
    (a.apply_protocol b).1.ingredients = a.ingredients := by
  obtain ⟨s1, s2, s3, s4, s5, s6, -⟩ := set_info_structural a b.info
  rcases hC : applyContainers (a.set_info b.info) b.containers with ⟨a2, e2⟩
  cases e2 with
  | some e =>
    exfalso
    have hunf : a.apply_protocol b = (a2, some e) := by
      simp only [Protocol.apply_protocol, hC]
    rw [hunf] at hok
    exact Option.noConfusion hok
  | none =>
    have hCf := applyContainers_ok_fields b.containers (a.set_info b.info) hndC
      (by rw [hC])
    simp only [hC] at hCf
    obtain ⟨c1, c2, c3, c4, c5, c6⟩ := hCf
    rcases hL : applyLabels a2 b.container_labels with ⟨a3, e3⟩
    cases e3 with
    | some e =>
      exfalso
      have hunf : a.apply_protocol b = (a3, some e) := by
        simp only [Protocol.apply_protocol, hC, hL]
      rw [hunf] at hok
      exact Option.noConfusion hok
    | none =>
      have hLf := applyLabels_ok_fields a2 b.container_labels (by rw [hL])
      simp only [hL] at hLf
      obtain ⟨l1, l2, l3, l4, l5, l6, l7⟩ := hLf
      obtain ⟨k1, k2, k3, k4, k5, k6, k7⟩ := applyLabelCase_fields b.label_case a3
      rcases hI : applyInstruments (applyLabelCase a3 b.label_case) b.head with ⟨a5, e5⟩
      cases e5 with
      | some e =>
        exfalso
        have hunf : a.apply_protocol b = (a5, some e) := by
          simp only [Protocol.apply_protocol, hC, hL, hI]
        rw [hunf] at hok
        exact Option.noConfusion hok
      | none =>
        have hIf := applyInstruments_ok_fields b.head (applyLabelCase a3 b.label_case)
          hndH (by rw [hI])
        simp only [hI] at hIf
        obtain ⟨i1, i2, i3, i4, i5, i6⟩ := hIf
        have hunf : a.apply_protocol b = applyCommands a5 b.commands := by
          simp only [Protocol.apply_protocol, hC, hL, hI]
        rw [hunf] at hok ⊢
        obtain ⟨m1, m2, m3, m4, m5, m6⟩ := applyCommands_ok_fields b.commands a5 hok
        refine ⟨?_, ?_, ?_, ?_, ?_, ?_⟩
        · rw [m2, i2, k2, l2, c1, s5]
        · rw [m3, i3, k3, l1, c2, s3]
        · rw [m4, i4, k1, l3, c3, s4]
        · rw [m5, i1, k4, l4, c4, s2]
        · rw [m1, m1.symm]
          rw [m1, i5, k5, l5, c5, s6]
        · rw [m6, i6, k6, l6, c6, s1]

theorem insNat_perm (x : Nat) (l : List Nat) : List.Perm (insNat x l) (x :: l) := by
  induction l with
  | nil => rfl
  | cons y ys ih =>
    simp only [insNat]
    split
    · rfl
    · exact (ih.cons y).trans (List.Perm.swap x y ys)

theorem canon_perm (l : List Nat) : List.Perm (canon l) l := by
  induction l with
  | nil => rfl
  | cons x xs ih => exact (insNat_perm x (canon xs)).trans (ih.cons x)

theorem insNat_sorted (x : Nat) (l : List Nat) (h : l.Sorted (· ≤ ·)) :
    (insNat x l).Sorted (· ≤ ·) := by
  induction l with
  | nil => simp [insNat]
  | cons y ys ih =>
    rw [List.sorted_cons] at h
    obtain ⟨hy, hys⟩ := h
    simp only [insNat]
    split
    · next hxy =>
      rw [List.sorted_cons]
      refine ⟨fun b hb => ?_, List.sorted_cons.mpr ⟨hy, hys⟩⟩
      rcases List.mem_cons.mp hb with rfl | hb2
      · exact hxy
      · exact le_trans hxy (hy b hb2)
    · next hxy =>
      rw [List.sorted_cons]
      refine ⟨fun b hb => ?_, ih hys⟩
      have hmem : b = x ∨ b ∈ ys := by
        have := (insNat_perm x ys).mem_iff.mp hb
        simpa using this
      rcases hmem with rfl | hb2
      · exact le_of_not_le hxy
      · exact hy b hb2

theorem canon_sorted (l : List Nat) : (canon l).Sorted (· ≤ ·) := by
  induction l with
  | nil => simp [canon]
  | cons x xs ih => exact insNat_sorted x (canon xs) ih

theorem canon_append_comm (xs ys : List Nat) : canon (xs ++ ys) = canon (ys ++ xs) := by
  haveI : IsAntisymm Nat (· ≤ ·) := ⟨fun _ _ h h2 => Nat.le_antisymm h h2⟩
  exact List.eq_of_perm_of_sorted
    (((canon_perm _).trans List.perm_append_comm).trans (canon_perm _).symm)
    (canon_sorted _) (canon_sorted _)

theorem filter_lookup_none {α β : Type} [DecidableEq α] (l m : List (α × β))
    (h : ∀ kv ∈ l, dictLookup m kv.1 = none) :
    l.filter (fun kv => (dictLookup m kv.1).isNone) = l :=
  List.filter_eq_self.mpr (fun x hx => by rw [h x hx]; rfl)

theorem apply_empty_fields (a : Protocol)
    (hndC : (a.containers.map Prod.fst).Nodup)
    (hndH : (a.head.map Prod.fst).Nodup)
    (hndL : (a.container_labels.map Prod.fst).Nodup)
    (hndK : (a.label_case.map Prod.fst).Nodup)
    (hok : (({} : Protocol).apply_protocol a).2 = none) :
    (({} : Protocol).apply_protocol a).1.containers = a.containers ∧
    (({} : Protocol).apply_protocol a).1.container_labels = a.container_labels ∧
    (({} : Protocol).apply_protocol a).1.label_case = a.label_case ∧
    (({} : Protocol).apply_protocol a).1.head = a.head ∧
    (({} : Protocol).apply_protocol a).1.commands = a.commands ∧
    (({} : Protocol).apply_protocol a).1.ingredients = [] := by
  obtain ⟨f1, f2, f3, f4, f5, f6⟩ := apply_protocol_ok_fields {} a hndC hndH hok
  refine ⟨?_, ?_, ?_, ?_, ?_, ?_⟩
  · rw [f1]
    show [] ++ a.containers.filter (fun sv => (dictLookup [] sv.1).isNone) = a.containers
    rw [List.nil_append, filter_lookup_none a.containers [] (fun kv _ => rfl)]
  · rw [f2]
    show a.container_labels.foldl (fun acc lv => dictInsert acc lv.1 lv.2) [] =
      a.container_labels
    rw [foldl_dictInsert_append a.container_labels [] (fun kv _ => rfl) hndL]
    exact List.nil_append a.container_labels
  · rw [f3]
    show a.label_case.foldl (fun acc kv => dictInsert acc kv.1 kv.2) [] = a.label_case
    rw [foldl_dictInsert_append a.label_case [] (fun kv _ => rfl) hndK]
    exact List.nil_append a.label_case
  · rw [f4]
    show [] ++ a.head.filter (fun av => (dictLookup [] av.1).isNone) = a.head
    rw [List.nil_append, filter_lookup_none a.head [] (fun kv _ => rfl)]
  · rw [f5]
    exact List.nil_append a.commands
  · exact f6

theorem add_fields (a b : Protocol)
    (hndCa : (a.containers.map Prod.fst).Nodup)
    (hndHa : (a.head.map Prod.fst).Nodup)
    (hndLa : (a.container_labels.map Prod.fst).Nodup)
    (hndKa : (a.label_case.map Prod.fst).Nodup)
    (hndCb : (b.containers.map Prod.fst).Nodup)
    (hndHb : (b.head.map Prod.fst).Nodup)
    (hndLb : (b.container_labels.map Prod.fst).Nodup)
    (hndKb : (b.label_case.map Prod.fst).Nodup)
    (hdisjC : ∀ sv ∈ b.containers, dictLookup a.containers sv.1 = none)
    (hdisjL : ∀ lv ∈ b.container_labels, dictLookup a.container_labels lv.1 = none)
    (hdisjK : ∀ kv ∈ b.label_case, dictLookup a.label_case kv.1 = none)
    (hdisjH : ∀ av ∈ b.head, dictLookup a.head av.1 = none)
    (hAB : (Protocol.add a b).isOk = true) :
    ∃ c, Protocol.add a b = .ok c ∧
      c.containers = a.containers ++ b.containers ∧
      c.container_labels = a.container_labels ++ b.container_labels ∧
      c.label_case = a.label_case ++ b.label_case ∧
      c.head = a.head ++ b.head ∧
      c.commands = a.commands ++ b.commands ∧
      c.ingredients = [] := by
  rcases h1 : ({} : Protocol).apply_protocol a with ⟨cA, eA⟩
  cases eA with
  | some e =>
    exfalso
    have hadd : Protocol.add a b = .error e := by
      simp only [Protocol.add, h1]
    rw [hadd] at hAB
    simp [Except.isOk, Except.toBool] at hAB
  | none =>
    have hA := apply_empty_fields a hndCa hndHa hndLa hndKa (by rw [h1])
    simp only [h1] at hA
    obtain ⟨a1, a2, a3, a4, a5, a6⟩ := hA
    rcases h2 : cA.apply_protocol b with ⟨c1, e1⟩
    cases e1 with
    | some e =>
      exfalso
      have hadd : Protocol.add a b = .error e := by
        simp only [Protocol.add, h1, h2]
      rw [hadd] at hAB
      simp [Except.isOk, Except.toBool] at hAB
    | none =>
      have hadd : Protocol.add a b = .ok c1 := by
        simp only [Protocol.add, h1, h2]
      have hB := apply_protocol_ok_fields cA b hndCb hndHb (by rw [h2])
      simp only [h2] at hB
      obtain ⟨b1, b2, b3, b4, b5, b6⟩ := hB
      refine ⟨c1, hadd, ?_, ?_, ?_, ?_, ?_, ?_⟩
      · rw [b1, a1, filter_lookup_none b.containers a.containers hdisjC]
      · rw [b2, a2, foldl_dictInsert_append b.container_labels a.container_labels
          hdisjL hndLb]
      · rw [b3, a3, foldl_dictInsert_append b.label_case a.label_case hdisjK hndKb]
      · rw [b4, a4, filter_lookup_none b.head a.head hdisjH]
      · rw [b5, a5]
      · rw [b6, a6]

/-- Claim C8 (amended): if A and B declare no overlapping container slots,
labels (names, labeled slots and label casing) or instrument axes, and at
most one of them carries commands, then `A + B` and `B + A` yield
hash-equal documents; metadata never enters the structural hash.  (When
both carry commands the merge concatenates the command logs in different
orders, so the hashes differ in general — see the counterexample.) -/
theorem merge_commutes_amended (a b : Protocol)
    (hndCa : (a.containers.map Prod.fst).Nodup)
    (hndHa : (a.head.map Prod.fst).Nodup)
    (hndLa : (a.container_labels.map Prod.fst).Nodup)
    (hndKa : (a.label_case.map Prod.fst).Nodup)
    (hndCb : (b.containers.map Prod.fst).Nodup)
    (hndHb : (b.head.map Prod.fst).Nodup)
    (hndLb : (b.container_labels.map Prod.fst).Nodup)
    (hndKb : (b.label_case.map Prod.fst).Nodup)
    (hdisjC : ∀ sv ∈ b.containers, dictLookup a.containers sv.1 = none)
    (hdisjC2 : ∀ sv ∈ a.containers, dictLookup b.containers sv.1 = none)
    (hdisjL : ∀ lv ∈ b.container_labels, dictLookup a.container_labels lv.1 = none)
    (hdisjL2 : ∀ lv ∈ a.container_labels, dictLookup b.container_labels lv.1 = none)
    (hdisjK : ∀ kv ∈ b.label_case, dictLookup a.label_case kv.1 = none)
    (hdisjK2 : ∀ kv ∈ a.label_case, dictLookup b.label_case kv.1 = none)
    (hdisjH : ∀ av ∈ b.head, dictLookup a.head av.1 = none)
    (hdisjH2 : ∀ av ∈ a.head, dictLookup b.head av.1 = none)
    (hcmd : b.commands = [])
    (hAB : (Protocol.add a b).isOk = true)
    (hBA : (Protocol.add b a).isOk = true) :
    (Protocol.add a b).map Protocol.hashv = (Protocol.add b a).map Protocol.hashv := by
  obtain ⟨c1, hc1, f1, f2, f3, f4, f5, f6⟩ := add_fields a b hndCa hndHa hndLa hndKa
    hndCb hndHb hndLb hndKb hdisjC hdisjL hdisjK hdisjH hAB
  obtain ⟨c2, hc2, g1, g2, g3, g4, g5, g6⟩ := add_fields b a hndCb hndHb hndLb hndKb
    hndCa hndHa hndLa hndKa hdisjC2 hdisjL2 hdisjK2 hdisjH2 hBA
  rw [hc1, hc2]
  simp only [Except.map]
  have hh : c1.hashv = c2.hashv := by
    unfold Protocol.hashv
    rw [f1, f2, f3, f4, f5, f6, g1, g2, g3, g4, g5, g6, hcmd]
    simp only [List.map_append]
    rw [canon_append_comm (List.map encContEntry a.containers),
      canon_append_comm (List.map encLabelEntry a.container_labels),
      canon_append_comm (List.map encSS a.label_case),
      canon_append_comm (List.map encSS a.head)]
    simp
  rw [hh]

/-- Claim C8 (counterexample): two protocols with disjoint slots, no labels
and disjoint axes, each carrying one transfer command, merge successfully
in both orders, but `A + B` and `B + A` are not hash-equal: the merged
command logs hold the same commands in different orders. -/
theorem merge_not_commutative :
    (Protocol.add exPT exQT).map Protocol.hashv ≠
      (Protocol.add exQT exPT).map Protocol.hashv ∧
    (Protocol.add exPT exQT).isOk = true ∧
    (Protocol.add exQT exPT).isOk = true ∧
    (∀ sv ∈ exQT.containers, dictLookup exPT.containers sv.1 = none) ∧
    (∀ av ∈ exQT.head, dictLookup exPT.head av.1 = none) ∧
    exPT.container_labels = [] ∧ exQT.container_labels = [] := by
  decide

theorem merge_commutes_amended_witness :
    (Protocol.add exPT exQ).map Protocol.hashv =
      (Protocol.add exQ exPT).map Protocol.hashv := by
  exact merge_commutes_amended exPT exQ (by decide) (by decide) (by decide) (by decide)
    (by decide) (by decide) (by decide) (by decide) (by decide) (by decide) (by decide)
    (by decide) (by decide) (by decide) (by decide) (by decide) (by decide) (by decide)
    (by decide)

/-- Concrete fixture: a raw protocol whose container map holds the same
slot twice with different types, so replaying it into a fresh document
conflicts with itself. -/
def exSelfBad : Protocol :=
  { containers := [((0, 0), "microplate.96"), ((0, 0), "other")] }

/-- Concrete fixture: exQ with an extra container conflicting with exP at
slot A1, and a name. -/
def exBad : Protocol :=
  { exQ with containers := exQ.containers ++ [((0, 0), "other")], name := some "B" }

/-- Claim C3 (counterexample): a conflicting merge raises, and `A + B`
yields no document, but `A.apply_protocol(B)` leaves its receiver
modified: B's metadata is applied and B's earlier non-conflicting
container has been added before the conflict raises. -/
theorem merge_conflict_mutates_receiver :
    (exP.apply_protocol exBad).2 =
      some (.containerConflict "Slot (0, 0) already allocated to other") ∧
    (exP.apply_protocol exBad).1 ≠ exP ∧
    (exP.apply_protocol exBad).1.containers =
      exP.containers ++ [((1, 0), "microplate.96")] ∧
    (exP.apply_protocol exBad).1.name = some "B" ∧
    exP.name = none ∧
    Protocol.add exP exBad =
      .error (.containerConflict "Slot (0, 0) already allocated to other") := by
  decide

/-- Claim C3 (amended): merge conflicts raise immediately and abort: once a
step of a merge loop raises, later entries are never processed, and a
conflict in the container stage ends `apply_protocol` at that stage
(labels, casing, instruments and commands of the operand are never
applied); `A + B` propagates the first conflict of either staged
application as its exception and returns no combined document (the fresh
document under construction is discarded, and the operands are only read);
however `A.apply_protocol(B)` can leave the receiver partially modified
when it raises — see the counterexample. -/
theorem merge_abort_amended :
    (∀ {σ α : Type} (f : σ → α → σ × Option Err) (s : σ) (xs ys : List α) (e : Err),
      (stepFold f s xs).2 = some e → stepFold f s (xs ++ ys) = stepFold f s xs) ∧
    (∀ (a b : Protocol) (e : Err),
      (applyContainers (a.set_info b.info) b.containers).2 = some e →
      a.apply_protocol b = applyContainers (a.set_info b.info) b.containers) ∧
    (∀ (a b : Protocol) (e : Err),
      (({} : Protocol).apply_protocol a).2 = some e → Protocol.add a b = .error e) ∧
    (∀ (a b cA : Protocol) (e : Err),
      ({} : Protocol).apply_protocol a = (cA, none) →
      (cA.apply_protocol b).2 = some e → Protocol.add a b = .error e) := by
  refine ⟨?_, ?_, ?_, ?_⟩
  · intro σ α f s xs ys e h
    rw [stepFold_append f xs ys s]
    rcases hx : stepFold f s xs with ⟨s2, e2⟩
    rw [hx] at h
    cases e2 with
    | none => exact absurd h (by simp)
    | some e2 => rfl
  · intro a b e h
    rcases hC : applyContainers (a.set_info b.info) b.containers with ⟨a2, e2⟩
    rw [hC] at h
    cases e2 with
    | none => exact absurd h (by simp)
    | some e2 => simp only [Protocol.apply_protocol, hC]
  · intro a b e h
    rcases h1 : ({} : Protocol).apply_protocol a with ⟨cA, eA⟩
    rw [h1] at h
    cases eA with
    | none => exact absurd h (by simp)
    | some eA =>
      have he : eA = e := by simpa using h
      simp only [Protocol.add, h1, he]
  · intro a b cA e h1 h
    rcases h2 : cA.apply_protocol b with ⟨c1, e1⟩
    rw [h2] at h
    cases e1 with
    | none => exact absurd h (by simp)
    | some e1 =>
      have he : e1 = e := by simpa using h
      simp only [Protocol.add, h1, h2, he]

theorem merge_abort_amended_witness :
    stepFold containersStep exP (exBad.containers ++ [((3, 3), "extra")]) =
      stepFold containersStep exP exBad.containers ∧
    exP.apply_protocol exBad =
      applyContainers (exP.set_info exBad.info) exBad.containers ∧
    Protocol.add exSelfBad exP =
      .error (.containerConflict "Slot (0, 0) already allocated to other") ∧
    Protocol.add exP exBad =
      .error (.containerConflict "Slot (0, 0) already allocated to other") := by
  refine ⟨?_, ?_, ?_, ?_⟩
  · exact merge_abort_amended.1 containersStep exP exBad.containers [((3, 3), "extra")]
      (.containerConflict "Slot (0, 0) already allocated to other") (by decide)
  · exact merge_abort_amended.2.1 exP exBad
      (.containerConflict "Slot (0, 0) already allocated to other") (by decide)
  · exact merge_abort_amended.2.2.1 exSelfBad exP
      (.containerConflict "Slot (0, 0) already allocated to other") (by decide)
  · exact merge_abort_amended.2.2.2 exP exBad
      (({} : Protocol).apply_protocol exP).1
      (.containerConflict "Slot (0, 0) already allocated to other") (by decide) (by decide)

theorem add_container_none_err (p : Protocol) (slot : Coord) (nm : String) (e : Err)
    (h : (p.add_container slot nm none).2 = some e) : ∃ m, e = .containerConflict m := by
  rcases hc : ctx_add_container p.context slot nm with e2 | c
  · have he : e2 = e := by
      simp only [Protocol.add_container, normalize_position, addContainerFinish, hc] at h
      simpa using h
    rcases hl : dictLookup p.context.containers slot with _ | n
    · exfalso
      unfold ctx_add_container at hc
      rw [hl] at hc
      exact Except.noConfusion hc
    · unfold ctx_add_container at hc
      rw [hl] at hc
      dsimp only at hc
      by_cases hn : n = nm
      · rw [if_pos hn] at hc
        exact Except.noConfusion hc
      · rw [if_neg hn] at hc
        refine ⟨"Slot " ++ toString slot ++ " already allocated to " ++ n, ?_⟩
        rw [← he]
        exact (Except.error.injEq _ _ |>.mp hc).symm
  · exfalso
    simp only [Protocol.add_container, normalize_position, addContainerFinish, hc] at h
    exact Option.noConfusion h

theorem applyContainers_conflict :
    ∀ (cs : List (Coord × String)) (p : Protocol) (s : Coord) (t1 t2 : String),
    dictLookup p.containers s = some t1 → (s, t2) ∈ cs → t1 ≠ t2 →
    ∃ m, (applyContainers p cs).2 = some (.containerConflict m) := by
  intro cs
  induction cs with
  | nil => intro p s t1 t2 _ hmem _; exact absurd hmem (List.not_mem_nil _)
  | cons sv rest ih =>
    intro p s t1 t2 hl1 hmem hne
    rcases hl : dictLookup p.containers sv.1 with _ | n
    · have hsne : sv.1 ≠ s := by
        intro hcontra
        rw [hcontra, hl1] at hl
        exact Option.noConfusion hl
      have hmem2 : (s, t2) ∈ rest := by
        rcases List.mem_cons.mp hmem with heq | h2
        · exact absurd (congrArg Prod.fst heq).symm hsne
        · exact h2
      have hstep : containersStep p sv = p.add_container sv.1 sv.2 none := by
        unfold containersStep
        rw [hl]
      rcases hadd : p.add_container sv.1 sv.2 none with ⟨q, e⟩
      cases e with
      | some e =>
        obtain ⟨m, hm⟩ := add_container_none_err p sv.1 sv.2 e (by rw [hadd])
        refine ⟨m, ?_⟩
        simp only [applyContainers, stepFold, hstep, hadd, hm]
      | none =>
        have hfields := add_container_fresh_ok_fields p sv.1 sv.2 hl (by rw [hadd])
        simp only [hadd] at hfields
        have hql : dictLookup q.containers s = some t1 := by
          rw [hfields.1, dictLookup_append, hl1]
          simp [Option.orElse]
        obtain ⟨m, hm⟩ := ih q s t1 t2 hql hmem2 hne
        refine ⟨m, ?_⟩
        have hunf : applyContainers p (sv :: rest) = applyContainers q rest := by
          simp only [applyContainers, stepFold, hstep, hadd]
        rw [hunf]
        exact hm
    · by_cases hn : n = sv.2
      · have hstep : containersStep p sv = (p, none) := by
          unfold containersStep
          rw [hl]
          simp [hn]
        have hmem2 : (s, t2) ∈ rest := by
          rcases List.mem_cons.mp hmem with heq | h2
          · exfalso
            have hs : sv.1 = s := (congrArg Prod.fst heq).symm
            have ht : sv.2 = t2 := (congrArg Prod.snd heq).symm
            rw [hs, hl1] at hl
            have : t1 = n := by
              have := hl.symm
              simp only [hl1, Option.some.injEq] at this
              exact this.symm
            exact hne (this.trans (hn.trans ht))
          · exact h2
        obtain ⟨m, hm⟩ := ih p s t1 t2 hl1 hmem2 hne
        refine ⟨m, ?_⟩
        have hunf : applyContainers p (sv :: rest) = applyContainers p rest := by
          simp only [applyContainers, stepFold, hstep]
        rw [hunf]
        exact hm
      · refine ⟨"Slot " ++ toString sv.1 ++ " already allocated to " ++ sv.2, ?_⟩
        have hstep : containersStep p sv = (p, some (.containerConflict
            ("Slot " ++ toString sv.1 ++ " already allocated to " ++ sv.2))) := by
          unfold containersStep
          rw [hl]
          simp [hn]
        simp only [applyContainers, stepFold, hstep]

theorem applyContainers_sync_ok :
    ∀ (cs : List (Coord × String)) (p : Protocol),
    (∀ sv ∈ cs, ∀ t, dictLookup p.containers sv.1 = some t → t = sv.2) →
    (cs.map Prod.fst).Nodup →
    p.context.containers = p.containers →
    (applyContainers p cs).2 = none ∧
    (applyContainers p cs).1.context.containers = (applyContainers p cs).1.containers ∧
    (applyContainers p cs).1.context.instruments = p.context.instruments ∧
    (applyContainers p cs).1.context.executed = p.context.executed := by
  intro cs
  induction cs with
  | nil => intro p _ _ hsync; exact ⟨rfl, hsync, rfl, rfl⟩
  | cons sv rest ih =>
    intro p hcomp hnd hsync
    rw [List.map_cons, List.nodup_cons] at hnd
    rcases hl : dictLookup p.containers sv.1 with _ | n
    · obtain ⟨w0, w1, w2, w3, w4, w5, w6, w7, w8, w9⟩ :=
        add_container_fresh_sync p sv.1 sv.2 hl hsync
      rcases hadd : p.add_container sv.1 sv.2 none with ⟨q, e⟩
      rw [hadd] at w0 w1 w2 w3 w4 w5 w6 w7 w8 w9
      cases e with
      | some e => exact absurd w0 (by simp)
      | none =>
        dsimp only at w0 w1 w2 w3 w4 w5 w6 w7 w8 w9
        have hstep : containersStep p sv = (q, none) := by
          unfold containersStep
          rw [hl, hadd]
        have hunf : applyContainers p (sv :: rest) = applyContainers q rest := by
          simp only [applyContainers, stepFold, hstep]
        rw [hunf]
        have hcomp2 : ∀ sv2 ∈ rest, ∀ t, dictLookup q.containers sv2.1 = some t →
            t = sv2.2 := by
          intro sv2 hm2 t hlt
          have hne2 : sv2.1 ≠ sv.1 := by
            intro hcontra
            exact hnd.1 (hcontra ▸ List.mem_map_of_mem Prod.fst hm2)
          rw [w1, dictLookup_append] at hlt
          rcases hpl : dictLookup p.containers sv2.1 with _ | v
          · rw [hpl] at hlt
            simp only [Option.orElse] at hlt
            have : dictLookup [(sv.1, sv.2)] sv2.1 = none := by
              simp [dictLookup, Ne.symm hne2]
            rw [this] at hlt
            exact Option.noConfusion hlt
          · rw [hpl] at hlt
            simp only [Option.orElse] at hlt
            cases hlt
            exact hcomp sv2 (List.mem_cons_of_mem sv hm2) t hpl
        have hq := ih q hcomp2 hnd.2 (by rw [w7, w1])
        exact ⟨hq.1, hq.2.1, hq.2.2.1.trans w8, hq.2.2.2.trans w9⟩
    · have hn : n = sv.2 := hcomp sv (List.mem_cons_self sv rest) n hl
      have hstep : containersStep p sv = (p, none) := by
        unfold containersStep
        rw [hl]
        simp [hn]
      have hunf : applyContainers p (sv :: rest) = applyContainers p rest := by
        simp only [applyContainers, stepFold, hstep]
      rw [hunf]
      exact ih p (fun sv2 hm2 => hcomp sv2 (List.mem_cons_of_mem sv hm2)) hnd.2 hsync

theorem labelsLoop_ok (inv : List (Coord × String)) :
    ∀ (ls : List (String × Coord)) (q : Protocol),
    (∀ lv ∈ ls, ∀ l, dictLookup inv lv.2 = some l → l = lv.1) →
    (stepFold (labelsStep inv) q ls).2 = none := by
  intro ls
  induction ls with
  | nil => intro q _; rfl
  | cons lv rest ih =>
    intro q hcomp
    rcases hl : dictLookup inv lv.2 with _ | l
    · have hstep : labelsStep inv q lv =
          ({ q with container_labels := dictInsert q.container_labels lv.1 lv.2 }, none) := by
        unfold labelsStep
        rw [hl]
      have hunf : stepFold (labelsStep inv) q (lv :: rest) =
          stepFold (labelsStep inv)
            { q with container_labels := dictInsert q.container_labels lv.1 lv.2 } rest := by
        simp only [stepFold, hstep]
      rw [hunf]
      exact ih _ (fun lv2 hm2 => hcomp lv2 (List.mem_cons_of_mem lv hm2))
    · have hle : l = lv.1 := hcomp lv (List.mem_cons_self lv rest) l hl
      have hstep : labelsStep inv q lv =
          ({ q with container_labels := dictInsert q.container_labels lv.1 lv.2 }, none) := by
        unfold labelsStep
        rw [hl]
        simp [hle]
      have hunf : stepFold (labelsStep inv) q (lv :: rest) =
          stepFold (labelsStep inv)
            { q with container_labels := dictInsert q.container_labels lv.1 lv.2 } rest := by
        simp only [stepFold, hstep]
      rw [hunf]
      exact ih _ (fun lv2 hm2 => hcomp lv2 (List.mem_cons_of_mem lv hm2))

theorem applyInstruments_sync_ok :
    ∀ (hs : List (String × String)) (p : Protocol),
    (∀ av ∈ hs, ∀ n, dictLookup p.head av.1 = some n → n = av.2) →
    (hs.map Prod.fst).Nodup →
    p.context.instruments = p.head →
    (applyInstruments p hs).2 = none ∧
    (applyInstruments p hs).1.context.instruments = (applyInstruments p hs).1.head ∧
    (applyInstruments p hs).1.context.containers = p.context.containers ∧
    (applyInstruments p hs).1.context.executed = p.context.executed := by
  intro hs
  induction hs with
  | nil => intro p _ _ hsync; exact ⟨rfl, hsync, rfl, rfl⟩
  | cons av rest ih =>
    intro p hcomp hnd hsync
    rw [List.map_cons, List.nodup_cons] at hnd
    have hcompav : ∀ n, dictLookup p.head av.1 = some n → n = av.2 :=
      hcomp av (List.mem_cons_self av rest)
    obtain ⟨w0, w1, w2, w3, w4, w5, w6, w7, w8, w9⟩ :=
      add_instrument_sync p av.1 av.2 hsync hcompav
    rcases hadd : p.add_instrument av.1 av.2 with ⟨q, e⟩
    rw [hadd] at w0 w1 w2 w3 w4 w5 w6 w7 w8 w9
    cases e with
    | some e => exact absurd w0 (by simp)
    | none =>
      dsimp only at w0 w1 w2 w3 w4 w5 w6 w7 w8 w9
      have hstep : instrumentsStep p av = (q, none) := by
        unfold instrumentsStep
        rcases hl : dictLookup p.head av.1 with _ | n
        · rw [hadd]
        · have : n = av.2 := hcompav n hl
          simp [this, hadd]
      have hunf : applyInstruments p (av :: rest) = applyInstruments q rest := by
        simp only [applyInstruments, stepFold, hstep]
      rw [hunf]
      have hcomp2 : ∀ av2 ∈ rest, ∀ n, dictLookup q.head av2.1 = some n → n = av2.2 := by
        intro av2 hm2 n hlt
        have hne2 : av2.1 ≠ av.1 := by
          intro hcontra
          exact hnd.1 (hcontra ▸ List.mem_map_of_mem Prod.fst hm2)
        rw [w1] at hlt
        rcases hpl : dictLookup p.head av2.1 with _ | v
        · exfalso
          rcases hl0 : dictLookup p.head av.1 with _ | n0
          · rw [dictInsert_of_lookup_none p.head av.1 av.2 hl0, dictLookup_append, hpl]
              at hlt
            simp only [Option.orElse] at hlt
            have : dictLookup [(av.1, av.2)] av2.1 = none := by
              simp [dictLookup, Ne.symm hne2]
            rw [this] at hlt
            exact Option.noConfusion hlt
          · have hn0 : n0 = av.2 := hcompav n0 hl0
            rw [hn0] at hl0
            rw [dictInsert_self p.head av.1 av.2 hl0, hpl] at hlt
            exact Option.noConfusion hlt
        · have heq : dictLookup (dictInsert p.head av.1 av.2) av2.1 =
              dictLookup p.head av2.1 := by
            rcases hl0 : dictLookup p.head av.1 with _ | n0
            · rw [dictInsert_of_lookup_none p.head av.1 av.2 hl0, dictLookup_append, hpl]
              simp [Option.orElse]
            · have hn0 : n0 = av.2 := hcompav n0 hl0
              rw [hn0] at hl0
              rw [dictInsert_self p.head av.1 av.2 hl0]
          rw [heq, hpl] at hlt
          have hvn : v = n := by simpa using hlt
          rw [← hvn]
          exact hcomp av2 (List.mem_cons_of_mem av hm2) v hpl
      have hq := ih q hcomp2 hnd.2 (by rw [w7, w1])
      exact ⟨hq.1, hq.2.1, hq.2.2.1.trans w8, hq.2.2.2.trans w9⟩

theorem apply_protocol_sync_ok (a b : Protocol)
    (hsyncC : a.context.containers = a.containers)
    (hsyncI : a.context.instruments = a.head)
    (hcompC : ∀ sv ∈ b.containers, ∀ t, dictLookup a.containers sv.1 = some t → t = sv.2)
    (hndCb : (b.containers.map Prod.fst).Nodup)
    (hcompL : ∀ lv ∈ b.container_labels, ∀ l,
      dictLookup (invertLabels a.container_labels) lv.2 = some l → l = lv.1)
    (hcompH : ∀ av ∈ b.head, ∀ n, dictLookup a.head av.1 = some n → n = av.2)
    (hndHb : (b.head.map Prod.fst).Nodup)
    (hcmd : b.commands = []) :
    (a.apply_protocol b).2 = none := by
  obtain ⟨s1, s2, s3, s4, s5, s6, s7, -⟩ := set_info_structural a b.info
  have hC := applyContainers_sync_ok b.containers (a.set_info b.info)
    (fun sv hm t ht => hcompC sv hm t (by rw [← s5]; exact ht)) hndCb
    (by rw [s7, s5, hsyncC])
  rcases hCr : applyContainers (a.set_info b.info) b.containers with ⟨a2, e2⟩
  rw [hCr] at hC
  cases e2 with
  | some e => exact absurd hC.1 (by simp)
  | none =>
    have hCf := applyContainers_ok_fields b.containers (a.set_info b.info) hndCb
      (by rw [hCr])
    rw [hCr] at hCf
    obtain ⟨c1, c2, c3, c4, c5, c6⟩ := hCf
    dsimp only at hC c1 c2 c3 c4 c5 c6
    have hlab2 : a2.container_labels = a.container_labels := c2.trans s3
    have hL : (applyLabels a2 b.container_labels).2 = none := by
      unfold applyLabels
      apply labelsLoop_ok
      rw [hlab2]
      exact hcompL
    rcases hLr : applyLabels a2 b.container_labels with ⟨a3, e3⟩
    rw [hLr] at hL
    cases e3 with
    | some e => exact absurd hL (by simp)
    | none =>
      have hLf := applyLabels_ok_fields a2 b.container_labels (by rw [hLr])
      rw [hLr] at hLf
      obtain ⟨l1, l2, l3, l4, l5, l6, l7⟩ := hLf
      dsimp only at l1 l2 l3 l4 l5 l6 l7
      obtain ⟨k1, k2, k3, k4, k5, k6, k7⟩ := applyLabelCase_fields b.label_case a3
      have hhead4 : (applyLabelCase a3 b.label_case).head = a.head := by
        rw [k4, l4, c4, s2]
      have hsyncI4 : (applyLabelCase a3 b.label_case).context.instruments =
          (applyLabelCase a3 b.label_case).head := by
        rw [k7, l7, hC.2.2.1, s7, hsyncI, hhead4]
      have hI := applyInstruments_sync_ok b.head (applyLabelCase a3 b.label_case)
        (fun av hm n hn => hcompH av hm n (by rw [← hhead4]; exact hn)) hndHb hsyncI4
      rcases hIr : applyInstruments (applyLabelCase a3 b.label_case) b.head with ⟨a5, e5⟩
      rw [hIr] at hI
      cases e5 with
      | some e => exact absurd hI.1 (by simp)
      | none =>
        have hunf : a.apply_protocol b = applyCommands a5 b.commands := by
          simp only [Protocol.apply_protocol, hCr, hLr, hIr]
        rw [hunf, hcmd]
        rfl

theorem apply_protocol_container_conflict (a b : Protocol) (s : Coord) (t1 t2 : String)
    (h1 : dictLookup a.containers s = some t1) (h2 : (s, t2) ∈ b.containers)
    (hne : t1 ≠ t2) :
    ∃ m, (a.apply_protocol b).2 = some (.containerConflict m) := by
  obtain ⟨-, -, -, -, s5, -⟩ := set_info_structural a b.info
  obtain ⟨m, hm⟩ := applyContainers_conflict b.containers (a.set_info b.info) s t1 t2
    (by rw [s5]; exact h1) h2 hne
  rcases hCr : applyContainers (a.set_info b.info) b.containers with ⟨a2, e2⟩
  rw [hCr] at hm
  cases e2 with
  | none => exact absurd hm (by simp)
  | some e =>
    have hunf : a.apply_protocol b = (a2, some e) := by
      simp only [Protocol.apply_protocol, hCr]
    rw [hunf]
    exact ⟨m, hm⟩

/-- Claim C2 (confirmed): merging two documents that declare the same slot
with different container types raises `ContainerConflict` — both for
`apply_protocol` directly and for `A + B` (given A replays cleanly into
the fresh document); and when both declare the same slot with the
identical type, the merge succeeds (given the two documents are otherwise
conflict-free, well-formed, and the operand carries no commands to
replay), with the duplicate declaration a no-op: the combined document
holds that container exactly once. -/
theorem merge_conflict_and_noop :
    (∀ (a b : Protocol) (s : Coord) (t1 t2 : String),
      dictLookup a.containers s = some t1 → (s, t2) ∈ b.containers → t1 ≠ t2 →
      ∃ m, (a.apply_protocol b).2 = some (.containerConflict m)) ∧
    (∀ (a b : Protocol) (s : Coord) (t1 t2 : String),
      (a.containers.map Prod.fst).Nodup → (a.head.map Prod.fst).Nodup →
      (a.container_labels.map Prod.fst).Nodup → (a.label_case.map Prod.fst).Nodup →
      (({} : Protocol).apply_protocol a).2 = none →
      dictLookup a.containers s = some t1 → (s, t2) ∈ b.containers → t1 ≠ t2 →
      ∃ m, Protocol.add a b = .error (.containerConflict m)) ∧
    (∀ (a b : Protocol) (s : Coord) (t : String),
      a.context.containers = a.containers →
      a.context.instruments = a.head →
      (∀ sv ∈ b.containers, ∀ t2, dictLookup a.containers sv.1 = some t2 → t2 = sv.2) →
      (b.containers.map Prod.fst).Nodup →
      (∀ lv ∈ b.container_labels, ∀ l,
        dictLookup (invertLabels a.container_labels) lv.2 = some l → l = lv.1) →
      (∀ av ∈ b.head, ∀ n, dictLookup a.head av.1 = some n → n = av.2) →
      (b.head.map Prod.fst).Nodup →
      b.commands = [] →
      (a.containers.map Prod.fst).Nodup →
      dictLookup a.containers s = some t → (s, t) ∈ b.containers →
      (a.apply_protocol b).2 = none ∧
      ((a.apply_protocol b).1.containers.filter (fun sv => decide (sv.1 = s))).length
        = 1) := by
  refine ⟨apply_protocol_container_conflict, ?_, ?_⟩
  · intro a b s t1 t2 hnC hnH hnL hnK hok0 h1 h2 hne
    rcases h1r : ({} : Protocol).apply_protocol a with ⟨cA, eA⟩
    rw [h1r] at hok0
    cases eA with
    | some e => exact absurd hok0 (by simp)
    | none =>
      have hf := apply_empty_fields a hnC hnH hnL hnK (by rw [h1r])
      rw [h1r] at hf
      obtain ⟨f1, -, -, -, -, -⟩ := hf
      dsimp only at f1
      obtain ⟨m, hm⟩ := apply_protocol_container_conflict cA b s t1 t2
        (by rw [f1]; exact h1) h2 hne
      rcases h2r : cA.apply_protocol b with ⟨c1, e1⟩
      rw [h2r] at hm
      cases e1 with
      | none => exact absurd hm (by simp)
      | some e1 =>
        have he : e1 = .containerConflict m := by simpa using hm
        refine ⟨m, ?_⟩
        simp only [Protocol.add, h1r, h2r, he]
  · intro a b s t hsyncC hsyncI hcompC hndCb hcompL hcompH hndHb hcmd hndCa h1 h2
    have hok := apply_protocol_sync_ok a b hsyncC hsyncI hcompC hndCb hcompL hcompH
      hndHb hcmd
    refine ⟨hok, ?_⟩
    obtain ⟨f1, -, -, -, -, -⟩ := apply_protocol_ok_fields a b hndCb hndHb hok
    rw [f1, List.filter_append, List.length_append]
    have ha : ((a.containers.filter (fun sv => decide (sv.1 = s))).length) = 1 :=
      filter_key_length_one a.containers s t hndCa h1
    have hb : ((b.containers.filter
          (fun sv => (dictLookup a.containers sv.1).isNone)).filter
        (fun sv => decide (sv.1 = s))) = [] := by
      apply List.filter_eq_nil_iff.mpr
      intro sv hsv
      obtain ⟨hmem, hpred⟩ := List.mem_filter.mp hsv
      simp only [decide_eq_true_eq]
      intro hs
      rw [hs, h1] at hpred
      exact Option.noConfusion (Option.isNone_iff_eq_none.mp hpred)
    rw [ha, hb]
    rfl

/-- Concrete fixture: declares exP's slot A1 with the identical container
type, plus a second disjoint slot; no labels, instruments or commands. -/
def exDup : Protocol :=
  { containers := [((0, 0), "microplate.96"), ((1, 0), "tiprack.10ul")] }

theorem merge_conflict_and_noop_witness :
    (∃ m, (exP.apply_protocol exBad).2 = some (.containerConflict m)) ∧
    (∃ m, Protocol.add exP exBad = .error (.containerConflict m)) ∧
    ((exP.apply_protocol exDup).2 = none ∧
      ((exP.apply_protocol exDup).1.containers.filter
        (fun sv => decide (sv.1 = (0, 0)))).length = 1) := by
  refine ⟨?_, ?_, ?_⟩
  · exact merge_conflict_and_noop.1 exP exBad (0, 0) "microplate.96" "other"
      (by decide) (by decide) (by decide)
  · exact merge_conflict_and_noop.2.1 exP exBad (0, 0) "microplate.96" "other"
      (by decide) (by decide) (by decide) (by decide) (by decide) (by decide)
      (by decide) (by decide)
  · exact merge_conflict_and_noop.2.2 exP exDup (0, 0) "microplate.96"
      (by decide) (by decide) (by decide) (by decide) (by decide) (by decide)
      (by decide) (by decide) (by decide) (by decide) (by decide)
